import Mathlib

/-!
Verification of `generate_blog_posts.py` (code-drill/feeds).

Strings are modelled as `List Char` (`Str`).  Python's regex character
classes `\w` and `\s` and the `str` methods `strip`/`lower` are modelled at
the ASCII level (`Char.isAlphanum`, `Char.toLower` are ASCII in Lean, as the
repository's data is ASCII).  The file system is an association list from
(date directory, file name) to file contents, and the wall clock
(`datetime.now()`) is an explicit parameter.
-/

namespace Feeds

/-- Strings, modelled as lists of characters. -/
abbrev Str := List Char

/-- Python's `\s` class (and `str.strip` character set), ASCII part:
space, tab, newline, carriage return, vertical tab, form feed. -/
def pyIsSpace (c : Char) : Bool :=
  c = ' ' || c = '\t' || c = '\n' || c = '\r' || c = '\x0b' || c = '\x0c'

/-- Python's `\w` class (ASCII part): letters, digits and underscore. -/
def pyIsWord (c : Char) : Bool :=
  c.isAlphanum || c = '_'

/-- Python `str.lstrip()`. -/
def pyLStrip (s : Str) : Str := s.dropWhile pyIsSpace

/-- Python `str.rstrip()`. -/
def pyRStrip (s : Str) : Str := (s.reverse.dropWhile pyIsSpace).reverse

/-- Python `str.strip()`. -/
def pyStrip (s : Str) : Str := pyRStrip (pyLStrip s)

/-- Python `str.lower()` (ASCII). -/
def pyLower (s : Str) : Str := s.map Char.toLower

/-- After `'<'`, consume the rest of a `<[^>]+>` match: at least one
character that is not `'>'`, then `'>'`; returns the remainder after the
closing `'>'`, or `none` if the regex does not match here. -/
def tagEndAux : Str → Option Str
  | [] => none
  | c :: rest => if c = '>' then some rest else tagEndAux rest

/-- First character after `'<'` must not be `'>'` (the `+` in `<[^>]+>`). -/
def tagEnd : Str → Option Str
  | [] => none
  | c :: rest => if c = '>' then none else tagEndAux rest

/-- Fueled scanner for tag removal (fuel bounds the remaining length, so
the jump past a closing `'>'` stays structural). -/
def removeTagsFuel : Nat → Str → Str
  | _, [] => []
  | 0, s => s
  | fuel + 1, c :: rest =>
    if c = '<' then
      match tagEnd rest with
      | some r => removeTagsFuel fuel r
      | none => c :: removeTagsFuel fuel rest
    else c :: removeTagsFuel fuel rest

/-- Model of `re.sub(r'<[^>]+>', '', text)`: remove HTML tags. -/
def removeTags (s : Str) : Str := removeTagsFuel s.length s

/-- Model of `re.sub(r'[^\w\s-]', '', text)`: keep only word characters,
whitespace and hyphens. -/
def keepWordSpaceDash (s : Str) : Str :=
  s.filter (fun c => pyIsWord c || pyIsSpace c || c = '-')

/-- A character matched by `[-\s]`. -/
def isDashSpace (c : Char) : Bool := c = '-' || pyIsSpace c

/-- Model of `re.sub(r'[-\s]+', '-', text)`: collapse runs of hyphens/whitespace
to a single hyphen. -/
def hyphenate : Str → Str
  | [] => []
  | [c] => if isDashSpace c then ['-'] else [c]
  | c :: d :: rest =>
    if isDashSpace c then
      if isDashSpace d then hyphenate (d :: rest)
      else '-' :: hyphenate (d :: rest)
    else c :: hyphenate (d :: rest)

/-- Model of `re.sub(r'\s+', ' ', content)`: collapse whitespace runs to a single
space. -/
def collapseWs : Str → Str
  | [] => []
  | [c] => if pyIsSpace c then [' '] else [c]
  | c :: d :: rest =>
    if pyIsSpace c then
      if pyIsSpace d then collapseWs (d :: rest)
      else ' ' :: collapseWs (d :: rest)
    else c :: collapseWs (d :: rest)

/-- Function `slugify` from `generate_blog_posts.py`: remove HTML tags, drop
characters outside `[\w\s-]`, strip, lowercase, collapse `[-\s]+` runs to
a hyphen, and truncate to 75 characters. -/
def slugify (text : Str) : Str :=
  (hyphenate (pyLower (pyStrip (keepWordSpaceDash (removeTags text))))).take 75

/-- Characters admissible in a slug: lowercase ASCII letters, digits,
hyphen, underscore. -/
def isSlugChar (c : Char) : Bool :=
  (97 ≤ c.toNat && c.toNat ≤ 122) || (48 ≤ c.toNat && c.toNat ≤ 57) || c = '-' || c = '_'

/-! Model of `html.unescape`, restricted to the five standard entities
(`&amp;` `&lt;` `&gt;` `&quot;` `&#39;`); other text is left unchanged. -/

/-- The apostrophe character. -/
def squote : Char := Char.ofNat 39

/-- Model of `html.unescape` restricted to the five standard entities. -/
def htmlUnescape : Str → Str
  | [] => []
  | '&' :: 'a' :: 'm' :: 'p' :: ';' :: r => '&' :: htmlUnescape r
  | '&' :: 'l' :: 't' :: ';' :: r => '<' :: htmlUnescape r
  | '&' :: 'g' :: 't' :: ';' :: r => '>' :: htmlUnescape r
  | '&' :: 'q' :: 'u' :: 'o' :: 't' :: ';' :: r => '"' :: htmlUnescape r
  | '&' :: '#' :: '3' :: '9' :: ';' :: r => squote :: htmlUnescape r
  | c :: r => c :: htmlUnescape r

/-- Function `clean_html_content`: decode entities, remove tags, collapse
whitespace, strip. -/
def cleanHtmlContent (content : Str) : Str :=
  if content.isEmpty then []
  else pyStrip (collapseWs (removeTags (htmlUnescape content)))

/-- The `.replace(s-quote-escape)` used on title and description:
escape double quotes with a backslash. -/
def escapeQuotes : Str → Str
  | [] => []
  | c :: r => if c = '"' then '\\' :: '"' :: escapeQuotes r else c :: escapeQuotes r

/-- Datetimes, naive (the code strips tzinfo with `replace(tzinfo=None)`). -/
structure DateTime where
  year : Nat
  month : Nat
  day : Nat
  hour : Nat
  minute : Nat
  second : Nat
deriving DecidableEq

/-- Lexicographic strict comparison of datetimes (Python `datetime` order). -/
def DateTime.ltb (a b : DateTime) : Bool :=
  if a.year ≠ b.year then Nat.blt a.year b.year
  else if a.month ≠ b.month then Nat.blt a.month b.month
  else if a.day ≠ b.day then Nat.blt a.day b.day
  else if a.hour ≠ b.hour then Nat.blt a.hour b.hour
  else if a.minute ≠ b.minute then Nat.blt a.minute b.minute
  else Nat.blt a.second b.second

/-- Non-strict comparison of datetimes. -/
def DateTime.leb (a b : DateTime) : Bool := !(DateTime.ltb b a)

/-- Gregorian leap year. -/
def leapYear (y : Nat) : Bool := (y % 4 = 0 && y % 100 ≠ 0) || y % 400 = 0

/-- Days in a month. -/
def daysInMonth (y m : Nat) : Nat :=
  if m = 2 then (if leapYear y then 29 else 28)
  else if m = 4 || m = 6 || m = 9 || m = 11 then 30
  else 31

/-- Numeric value of a digit character. -/
def digitVal (c : Char) : Nat := c.toNat - 48

/-- Two-digit number. -/
def twoDigits (a b : Char) : Nat := 10 * digitVal a + digitVal b

/-- Parse the `YYYY-MM-DD` date part, with calendar validation. -/
def parseDate (s : Str) : Option (Nat × Nat × Nat) :=
  match s with
  | [y1, y2, y3, y4, '-', m1, m2, '-', d1, d2] =>
    if ([y1, y2, y3, y4, m1, m2, d1, d2].all Char.isDigit) then
      let y := 1000 * digitVal y1 + 100 * digitVal y2 + 10 * digitVal y3 + digitVal y4
      let m := twoDigits m1 m2
      let d := twoDigits d1 d2
      if 1 ≤ y ∧ 1 ≤ m ∧ m ≤ 12 ∧ 1 ≤ d ∧ d ≤ daysInMonth y m then some (y, m, d)
      else none
    else none
  | _ => none

/-- Validate a trailing UTC-offset suffix (`±HH:MM`, bounded as Python
requires), or no suffix at all. -/
def parseOffsetOk : Str → Bool
  | [] => true
  | [sign, o1, o2, ':', o3, o4] =>
    (sign = '+' || sign = '-') && ([o1, o2, o3, o4].all Char.isDigit) &&
      decide (twoDigits o1 o2 ≤ 23 ∧ twoDigits o3 o4 ≤ 59)
  | _ => false

/-- Parse the time-of-day part `HH:MM[:SS]` with optional offset. -/
def parseTime (s : Str) : Option (Nat × Nat × Nat) :=
  match s with
  | h1 :: h2 :: ':' :: m1 :: m2 :: rest =>
    if ([h1, h2, m1, m2].all Char.isDigit) ∧ twoDigits h1 h2 ≤ 23 ∧ twoDigits m1 m2 ≤ 59 then
      match rest with
      | ':' :: s1 :: s2 :: rest2 =>
        if ([s1, s2].all Char.isDigit) ∧ twoDigits s1 s2 ≤ 59 ∧ parseOffsetOk rest2 = true then
          some (twoDigits h1 h2, twoDigits m1 m2, twoDigits s1 s2)
        else none
      | _ =>
        if parseOffsetOk rest then some (twoDigits h1 h2, twoDigits m1 m2, 0) else none
    else none
  | _ => none

/-- Model of `datetime.fromisoformat` (Python 3.11), restricted to the
forms `YYYY-MM-DD`, `YYYY-MM-DD<sep>HH:MM[:SS]`, optionally followed by a
`±HH:MM` offset.  The code then strips tzinfo with `replace(tzinfo=None)`,
so the offset is validated and dropped.  Fractional seconds and dash-less
basic forms are outside the model. -/
def fromisoformat (s : Str) : Option DateTime :=
  match parseDate (s.take 10) with
  | none => none
  | some (y, m, d) =>
    match s.drop 10 with
    | [] => some ⟨y, m, d, 0, 0, 0⟩
    | _sep :: timeStr =>
      match parseTime timeStr with
      | none => none
      | some (hh, mm, ss) => some ⟨y, m, d, hh, mm, ss⟩

/-- The `.replace` of `'Z'` by `'+00:00'` applied to the published date. -/
def replaceZ : Str → Str
  | [] => []
  | c :: r =>
    if c = 'Z' then '+' :: '0' :: '0' :: ':' :: '0' :: '0' :: replaceZ r
    else c :: replaceZ r

/-- The character of a decimal digit. -/
def digitChar (n : Nat) : Char := Char.ofNat (48 + n % 10)

/-- A zero-padded two-digit `strftime` field (`%m` `%d` `%H` `%M` `%S`). -/
def pad2 (n : Nat) : Str := [digitChar (n / 10 % 10), digitChar (n % 10)]

/-- A zero-padded four-digit year (`%Y`; `datetime` years are 1..9999). -/
def pad4 (n : Nat) : Str :=
  [digitChar (n / 1000 % 10), digitChar (n / 100 % 10), digitChar (n / 10 % 10),
    digitChar (n % 10)]

/-- Render `strftime('%Y-%m-%d')`. -/
def formatDate (d : DateTime) : Str :=
  pad4 d.year ++ '-' :: pad2 d.month ++ '-' :: pad2 d.day

/-- Render `strftime('%Y-%m-%d %H:%M:%S %z')`; for a naive datetime `%z`
renders as the empty string, leaving a trailing space. -/
def formatDateTimeZ (d : DateTime) : Str :=
  formatDate d ++ ' ' :: pad2 d.hour ++ ':' :: pad2 d.minute ++
    ':' :: pad2 d.second ++ [' ']

/-- A CSV row / blog-post item: the eight columns of the feed.  The same
shape serves for a raw `csv.DictReader` row and for a validated
`BlogPostItem` (whose construction strips the fields).  CSV quoting and
field extraction (`csv.DictReader`) are standard-library code and outside
the model: rows enter the model already split into fields. -/
structure Item where
  title : Str
  link : Str
  publishedDate : Str
  summary : Str
  aiCategory : Str
  sourceName : Str
  sourceURL : Str
  author : Str
deriving DecidableEq

/-- Field stripping performed by the `BlogPostItem` validators. -/
def stripItem (r : Item) : Item :=
  { title := pyStrip r.title
    link := pyStrip r.link
    publishedDate := pyStrip r.publishedDate
    summary := pyStrip r.summary
    aiCategory := pyStrip r.aiCategory
    sourceName := pyStrip r.sourceName
    sourceURL := pyStrip r.sourceURL
    author := pyStrip r.author }

/-- The `BlogPostItem` required-field validation: Title, Link and
Published Date must be non-blank after stripping. -/
def requiredOk (r : Item) : Bool :=
  !(pyStrip r.title).isEmpty && !(pyStrip r.link).isEmpty && !(pyStrip r.publishedDate).isEmpty

/-- Constructing a `BlogPostItem` from a raw row: validates the three
required fields and strips every field (optional fields default to
empty, and `v.strip() if v else \"\"` equals `pyStrip`). -/
def mkBlogPostItem (r : Item) : Option Item :=
  if requiredOk r then some (stripItem r) else none

/-- Function `parse_csv_to_objects` on rows already split by
`csv.DictReader`: each row failing validation is skipped, the rest are
kept in order.  The enclosing `try` returns `[]` on reader errors; the
row-level `try` skips the row, which `filterMap` models. -/
def parseCsvToObjects (rows : List Item) : List Item :=
  rows.filterMap mkBlogPostItem

/-- Function `is_valid_to_save`: Summary and AI Category non-blank. -/
def isValidToSave (i : Item) : Bool :=
  !(pyStrip i.aiCategory).isEmpty && !(pyStrip i.summary).isEmpty

/-- File-system paths: (date directory, file name) under the posts dir. -/
abbrev PathKey := Str × Str

/-- The posts directory contents: an association list from path to file
content.  Only the generated `.md` posts live under the posts dir. -/
abbrev FS := List (PathKey × Str)

/-- File lookup. -/
def fsLookup (fs : FS) (k : PathKey) : Option Str :=
  match fs with
  | [] => none
  | (k', v) :: rest => if k' = k then some v else fsLookup rest k

/-- The source tag derived from `Source Name` in `create_blog_post`:
`strip`, drop `[^\w\s-]`, `strip`, `lower`, collapse `[-\s]+` to `-`. -/
def sourceTag (sourceName : Str) : Str :=
  hyphenate (pyLower (pyStrip (keepWordSpaceDash (pyStrip sourceName))))

/-- The `tags` header value: the single source tag if non-empty (the code
builds a one-element tag list, filters blank tags, and joins the sorted
set with commas). -/
def tagsStr (sourceName : Str) : Str :=
  let sn := pyStrip sourceName
  if sn.isEmpty then []
  else
    let t := sourceTag sourceName
    if t.isEmpty then []
    else if (pyStrip t).isEmpty then []
    else t

/-- The `description` header value: cleaned summary truncated to 150
characters, `'...'` appended, double quotes escaped. -/
def postDescription (summary : Str) : Str :=
  escapeQuotes ((cleanHtmlContent summary).take 150 ++ ('.' :: '.' :: '.' :: []))

/-- The `category` header value: lowercased AI Category, defaulting to
`general` when the field is empty. -/
def categoryOf (ai : Str) : Str :=
  if ai.isEmpty then "general".toList else pyLower ai

/-- Function `format_markdown_content`. -/
def formatMarkdownContent (item : Item) : Str :=
  pyStrip ("\n".toList ++ cleanHtmlContent item.summary ++
    "\n\n**Source:** [".toList ++ item.sourceName ++ "](".toList ++ item.sourceURL ++
    ")  \n**Author:** ".toList ++
    (if item.author.isEmpty then "Unknown".toList else item.author) ++
    "  \n**Category:** ".toList ++ item.aiCategory ++ "\n".toList)

/-- The full content written by `create_blog_post`: the Nikola metadata
header (an HTML comment of `.. key: value` lines) followed by a blank
line and the markdown body. -/
def postContent (item : Item) (pubDate : DateTime) (slug : Str) : Str :=
  "<!--\n.. title: ".toList ++ escapeQuotes item.title ++
  "\n.. slug: ".toList ++ slug ++
  "\n.. date: ".toList ++ formatDateTimeZ pubDate ++
  "\n.. tags: ".toList ++ tagsStr item.sourceName ++
  "\n.. category: ".toList ++ categoryOf item.aiCategory ++
  "\n.. link: ".toList ++ item.link ++
  "\n.. description: ".toList ++ postDescription item.summary ++
  "\n.. type: text\n-->\n\n".toList ++ formatMarkdownContent item

/-- The clamp `if pub_date > datetime.now(): pub_date = datetime.now()`
in `create_blog_post`. -/
def clampDate (now d : DateTime) : DateTime :=
  if DateTime.ltb now d then now else d

/-- The path of an item's post: date directory from the clamped published
date, file name from the slug. -/
def postKey (item : Item) (now d : DateTime) : PathKey :=
  (formatDate (clampDate now d), slugify item.title ++ ".md".toList)

/-- Function `create_blog_post`.  `none` models the `ValueError` escaping
from `datetime.fromisoformat` on an unparseable date (caught by the
caller); otherwise returns (created?, new file system).  Effects in order:
parse and clamp the date (the clock `now` is `datetime.now()`), build the
path from the date directory and the slug, skip if the file exists, skip
if Summary or AI Category is blank, else write.  Directory creation
(`mkdir`) has no observable effect in the file-map model. -/
def createBlogPost (item : Item) (fs : FS) (now : DateTime) : Option (Bool × FS) :=
  match fromisoformat (replaceZ item.publishedDate) with
  | none => none
  | some d =>
    match fsLookup fs (postKey item now d) with
    | some _ => some (false, fs)
    | none =>
      if !(pyStrip item.aiCategory).isEmpty && !(pyStrip item.summary).isEmpty then
        some (true, (postKey item now d, postContent item (clampDate now d) (slugify item.title)) :: fs)
      else some (false, fs)

/-- Function `save_items_to_files`: fold over the items, counting
(created, processed); items failing `is_valid_to_save` are skipped, and
an exception from `create_blog_post` (the `none` case) is caught so the
remaining items are still processed. -/
def saveItemsToFiles : List Item → FS → DateTime → Nat × Nat × FS
  | [], fs, _ => (0, 0, fs)
  | item :: rest, fs, now =>
    if !(isValidToSave item) then
      let r := saveItemsToFiles rest fs now
      (r.1, r.2.1 + 1, r.2.2)
    else
      match createBlogPost item fs now with
      | none =>
        let r := saveItemsToFiles rest fs now
        (r.1, r.2.1 + 1, r.2.2)
      | some (created, fs1) =>
        let r := saveItemsToFiles rest fs1 now
        (if created then r.1 + 1 else r.1, r.2.1 + 1, r.2.2)

/-- Split a string on newlines (Python `str.split`-style: the result is
never empty, and empty pieces are kept). -/
def splitLines : Str → List Str
  | [] => [[]]
  | c :: rest =>
    if c = '\n' then [] :: splitLines rest
    else
      match splitLines rest with
      | l :: ls => (c :: l) :: ls
      | [] => [[c]]

/-- Split a string on commas (for the `tags` metadata value). -/
def splitCommas : Str → List Str
  | [] => [[]]
  | c :: rest =>
    if c = ',' then [] :: splitCommas rest
    else
      match splitCommas rest with
      | l :: ls => (c :: l) :: ls
      | [] => [[c]]

/-- A line consisting only of whitespace (or empty). -/
def isBlankLine (l : Str) : Bool := l.all pyIsSpace

/-- A line matching `^\s*-->`: optional whitespace then the comment
terminator. -/
def startsWithArrow (l : Str) : Bool :=
  ("-->".toList).isPrefixOf (l.dropWhile pyIsSpace)

/-- Whether the terminator `\n\s*-->` of the metadata-comment regex
matches at this line boundary: the next line is `\s*-->`, possibly after
a run of blank lines (whitespace spans newlines). -/
def startsTerm : List Str → Bool
  | [] => false
  | l :: rest => startsWithArrow l || (isBlankLine l && startsTerm rest)

/-- Collect the group lines of `<!--\s*\n(.*?)\n\s*-->` up to the lazily
matched terminator; `none` when no terminator follows. -/
def takeBlock : List Str → Option (List Str)
  | [] => none
  | l :: rest =>
    if startsTerm (l :: rest) then some []
    else (takeBlock rest).map (l :: ·)

/-- A line on which `<!--\s*\n` matches: some occurrence of `<!--`
followed only by whitespace up to the end of the line. -/
def openCommentLine : Str → Bool
  | [] => false
  | c :: rest =>
    (("<!--".toList).isPrefixOf (c :: rest) && ((c :: rest).drop 4).all pyIsSpace) ||
      openCommentLine rest

/-- Model of `re.search(r'<!--\s*\n(.*?)\n\s*-->', content, re.DOTALL)`
at line granularity: the first line opening a comment whose group has a
terminator; the group starts at the first non-blank line after the
opener. -/
def extractBlockLines : List Str → Option (List Str)
  | [] => none
  | l :: rest =>
    if openCommentLine l then
      match takeBlock (rest.dropWhile isBlankLine) with
      | some g => some g
      | none => extractBlockLines rest
    else extractBlockLines rest

/-- Insert or overwrite a key in an insertion-ordered dictionary (Python
dict assignment). -/
def upsert : List (Str × Str) → Str → Str → List (Str × Str)
  | [], k, v => [(k, v)]
  | (k', v') :: rest, k, v =>
    if k' = k then (k, v) :: rest else (k', v') :: upsert rest k v

/-- Dictionary lookup. -/
def dictLookup : List (Str × Str) → Str → Option Str
  | [], _ => none
  | (k', v) :: rest, k => if k' = k then some v else dictLookup rest k

/-- One line of the metadata block: strip, require the `.. ` marker,
split at the first colon, strip key and value, assign into the dict. -/
def parseMetaLine (acc : List (Str × Str)) (line : Str) : List (Str × Str) :=
  let l := pyStrip line
  if (".. ".toList).isPrefixOf l then
    let l2 := l.drop 3
    if l2.contains ':' then
      let key := pyStrip (l2.takeWhile (fun c => !(c == ':')))
      let value := pyStrip ((l2.dropWhile (fun c => !(c == ':'))).drop 1)
      upsert acc key value
    else acc
  else acc

/-- Function `parse_post_metadata` on a file's content (the file-read
`try` cannot fail in the file-map model). -/
def parsePostMetadata (content : Str) : List (Str × Str) :=
  match extractBlockLines (splitLines content) with
  | none => []
  | some blockLines => blockLines.foldl parseMetaLine []

/-- Set-insert into a duplicate-free list. -/
def insertSet (x : Str) (l : List Str) : List Str :=
  if x ∈ l then l else x :: l

/-- Per-file step of `scan_existing_posts`: collect the stripped
`category` when non-blank, and the first (comma-separated, stripped)
entry of `tags` when non-blank. -/
def scanFold (acc : List Str × List Str) (file : PathKey × Str) : List Str × List Str :=
  let md := parsePostMetadata file.2
  let cats :=
    match dictLookup md ("category".toList) with
    | some c => let c' := pyStrip c; if c'.isEmpty then acc.1 else insertSet c' acc.1
    | none => acc.1
  let srcs :=
    match dictLookup md ("tags".toList) with
    | some t =>
      match splitCommas t with
      | [] => acc.2
      | t0 :: _ => let s := pyStrip t0; if s.isEmpty then acc.2 else insertSet s acc.2
    | none => acc.2
  (cats, srcs)

/-- Function `scan_existing_posts`: fold over all `.md` posts (every file
of the posts dir in the model); Python's `set`s become duplicate-free
lists. -/
def scanExistingPosts (fs : FS) : List Str × List Str :=
  fs.foldl scanFold ([], [])

/-- Lexicographic (code-point) comparison of strings, as Python `sorted`
uses. -/
def strLeb : Str → Str → Bool
  | [], _ => true
  | _ :: _, [] => false
  | a :: as, b :: bs => if a = b then strLeb as bs else Nat.blt a.toNat b.toNat

/-- Insertion into a sorted list. -/
def insertSortedStr (x : Str) : List Str → List Str
  | [] => [x]
  | y :: ys => if strLeb x y then x :: y :: ys else y :: insertSortedStr x ys

/-- Python `sorted` on a collection of strings (insertion sort). -/
def sortStrs (l : List Str) : List Str := l.foldr insertSortedStr []

/-- Generic association-list lookup for the display-name tables. -/
def assocLookup {α : Type} : List (Str × α) → Str → Option α
  | [], _ => none
  | (k', v) :: rest, k => if k' = k then some v else assocLookup rest k

/-- The static category display-name table from
`generate_category_buttons`. -/
def categoryMapping : List (Str × (Str × Str)) :=
  [ ("educational".toList, ("Educational & How-To".toList, "cat_educational".toList)),
    ("event".toList, ("Event".toList, "cat_event".toList)),
    ("general".toList, ("General".toList, "cat_general".toList)),
    ("industry_analysis".toList,
      ("Industry Analysis & Insights".toList, "cat_industry_analysis".toList)),
    ("product_announcements".toList,
      ("Product Announcements & Updates".toList, "cat_product_announcements".toList)),
    ("security_compliance".toList,
      ("Security & Compliance Focus".toList, "cat_security_compliance".toList)),
    ("technical_deep_dives".toList,
      ("Technical Deep Dives".toList, "cat_technical_deep_dives".toList)) ]

/-- Replace underscores by spaces (`str.replace('_', ' ')`). -/
def replaceUnderscore (s : Str) : Str := s.map (fun c => if c = '_' then ' ' else c)

/-- Replace hyphens by spaces (`str.replace('-', ' ')`). -/
def replaceDash (s : Str) : Str := s.map (fun c => if c = '-' then ' ' else c)

/-- Model of Python `str.title` (ASCII): uppercase a letter at a word
start, lowercase the rest; word boundaries are non-letters. -/
def pyTitleAux : Bool → Str → Str
  | _, [] => []
  | prevAlpha, c :: rest =>
    (if c.isAlpha then (if prevAlpha then Char.toLower c else Char.toUpper c) else c) ::
      pyTitleAux c.isAlpha rest

/-- Python `str.title` (ASCII model). -/
def pyTitle (s : Str) : Str := pyTitleAux false s

/-- One category filter button (the href braces are Mako template
syntax). -/
def catButton (category : Str) : Str :=
  let p :=
    match assocLookup categoryMapping category with
    | some p => p
    | none => (pyTitle (replaceUnderscore category), "cat_".toList ++ category)
  "                <a href=\"$\x7babs_link(".toList ++ [squote] ++ "categories/".toList ++
    p.2 ++ "/".toList ++ [squote] ++ ")\x7d\" class=\"btn btn-outline-primary btn-sm\">".toList ++
    p.1 ++ "</a>".toList

/-- Function `generate_category_buttons`: one button per category, in
sorted order, joined by newlines. -/
def generateCategoryButtons (cats : List Str) : Str :=
  List.intercalate "\n".toList ((sortStrs cats).map catButton)

/-- The static source display-name table from `generate_source_buttons`. -/
def sourceMapping : List (Str × Str) :=
  [ ("1password-blog".toList, "1Password Blog".toList),
    ("airbnb-engineering".toList, "Airbnb Engineering".toList),
    ("amd-developer-blog".toList, "AMD Developer Blog".toList),
    ("apple-developer-news".toList, "Apple Developer News".toList),
    ("atlassian-developer-blog".toList, "Atlassian Developer Blog".toList),
    ("auth0-blog".toList, "Auth0 Blog".toList),
    ("aws-blog".toList, "AWS Blog".toList),
    ("circleci-blog".toList, "CircleCI Blog".toList),
    ("cisco-developer-blog".toList, "Cisco Developer Blog".toList),
    ("cloudflare-blog".toList, "Cloudflare Blog".toList),
    ("code-as-craft".toList, "Code as Craft".toList),
    ("crowdstrike-blog".toList, "CrowdStrike Blog".toList),
    ("databricks-blog".toList, "Databricks Blog".toList),
    ("digitalocean-blog".toList, "DigitalOcean Blog".toList),
    ("docker-blog".toList, "Docker Blog".toList),
    ("doordash-engineering".toList, "DoorDash Engineering".toList),
    ("dropbox-tech-blog".toList, "Dropbox Tech Blog".toList),
    ("elastic-blog".toList, "Elastic Blog".toList),
    ("engineering-at-meta".toList, "Engineering at Meta".toList),
    ("gitlab-blog".toList, "GitLab Blog".toList),
    ("google-developers-blog".toList, "Google Developers Blog".toList),
    ("google-research".toList, "Google Research".toList),
    ("grab-tech".toList, "Grab Tech".toList),
    ("hashicorp-blog".toList, "HashiCorp Blog".toList),
    ("heroku-blog".toList, "Heroku Blog".toList),
    ("hugging-face-blog".toList, "Hugging Face Blog".toList),
    ("jetbrains-blog".toList, "JetBrains Blog".toList),
    ("kubernetes-blog".toList, "Kubernetes Blog".toList),
    ("ly-corporation-tech-blog".toList, "LY Corporation Tech Blog".toList),
    ("lyft-engineering".toList, "Lyft Engineering".toList),
    ("medium-engineering".toList, "Medium Engineering".toList),
    ("mongodb-blog".toList, "MongoDB Blog".toList),
    ("mozilla-hacks".toList, "Mozilla Hacks".toList),
    ("netflix-technology-blog".toList, "Netflix Technology Blog".toList),
    ("nvidia-developer-blog".toList, "NVIDIA Developer Blog".toList),
    ("okta-developer-blog".toList, "Okta Developer Blog".toList),
    ("palantir-blog".toList, "Palantir Blog".toList),
    ("pinterest-engineering".toList, "Pinterest Engineering".toList),
    ("planetscale-blog".toList, "PlanetScale Blog".toList),
    ("railway-blog".toList, "Railway Blog".toList),
    ("red-hat-developer-blog".toList, "Red Hat Developer Blog".toList),
    ("robinhood-engineering".toList, "Robinhood Engineering".toList),
    ("salesforce-engineering".toList, "Salesforce Engineering".toList),
    ("stack-overflow-blog".toList, "Stack Overflow Blog".toList),
    ("stripe-blog".toList, "Stripe Blog".toList),
    ("supabase-blog".toList, "Supabase Blog".toList),
    ("tableau-engineering".toList, "Tableau Engineering".toList),
    ("twilio-engineering".toList, "Twilio Engineering".toList),
    ("uber-engineering".toList, "Uber Engineering".toList),
    ("unity-blog".toList, "Unity Blog".toList),
    ("unreal-engine-blog".toList, "Unreal Engine Blog".toList),
    ("vercel-blog".toList, "Vercel Blog".toList),
    ("webflow-blog".toList, "Webflow Blog".toList) ]

/-- One source filter button. -/
def srcButton (source : Str) : Str :=
  let displayName :=
    match assocLookup sourceMapping source with
    | some d => d
    | none => pyTitle (replaceDash source)
  "                <a href=\"$\x7babs_link(".toList ++ [squote] ++ "sources/".toList ++
    source ++ "/".toList ++ [squote] ++ ")\x7d\" class=\"btn btn-outline-success btn-sm\">".toList ++
    displayName ++ "</a>".toList

/-- Function `generate_source_buttons`. -/
def generateSourceButtons (srcs : List Str) : Str :=
  List.intercalate "\n".toList ((sortStrs srcs).map srcButton)

/-- Fueled replacement scanner (fuel bounds the remaining length, so the
jump past a matched pattern stays structural). -/
def replaceAllFuel (pat rep : Str) : Nat → Str → Str
  | _, [] => []
  | 0, s => s
  | fuel + 1, c :: rest =>
    if pat.isPrefixOf (c :: rest) ∧ pat ≠ [] then
      rep ++ replaceAllFuel pat rep fuel (rest.drop (pat.length - 1))
    else c :: replaceAllFuel pat rep fuel rest

/-- Model of Python `str.replace(pat, rep)`: replace every
non-overlapping occurrence left to right; the replacement is not
rescanned.  (For an empty pattern the model is the identity; the program
only uses non-empty patterns.) -/
def replaceAll (pat rep s : Str) : Str := replaceAllFuel pat rep s.length s

/-- The category placeholder literal `DYNAMIC_CATEGORIES` in braces
after a dollar sign. -/
def catPlaceholder : Str := "$\x7bDYNAMIC_CATEGORIES\x7d".toList

/-- The source placeholder literal `DYNAMIC_SOURCES` in braces after a
dollar sign. -/
def srcPlaceholder : Str := "$\x7bDYNAMIC_SOURCES\x7d".toList

/-- Function `update_filters_template` on the template's content:
substitute both placeholders (categories first, as the code does). -/
def updateFiltersTemplate (template : Str) (cats srcs : List Str) : Str :=
  replaceAll srcPlaceholder (generateSourceButtons srcs)
    (replaceAll catPlaceholder (generateCategoryButtons cats) template)

/-- The filters stage at the end of `generate`: scan the corpus; when
both result sets are empty the template is left untouched, and a missing
template file (modelled `none`) stays missing. -/
def runFiltersStage (fs : FS) (template : Option Str) : Option Str :=
  let cs := scanExistingPosts fs
  if cs.1.isEmpty && cs.2.isEmpty then template
  else
    match template with
    | none => none
    | some t => some (updateFiltersTemplate t cs.1 cs.2)

/-- The materialization condition of claim C1 (amended with parseability
of `Published Date`): the row passes `BlogPostItem` validation, the
parsed item's Summary and AI Category are non-blank, the published date
parses, and no file exists at the derived path. -/
def rowCreatable (r : Item) (fs : FS) (now : DateTime) : Bool :=
  requiredOk r && isValidToSave (stripItem r) &&
    (match fromisoformat (replaceZ (pyStrip r.publishedDate)) with
     | none => false
     | some d => (fsLookup fs (postKey (stripItem r) now d)).isNone)

/-- File-system extension: every present path stays present. -/
def fsExt (f g : FS) : Prop :=
  ∀ k, (fsLookup f k).isSome = true → (fsLookup g k).isSome = true

/-- An item that the save step can only skip on file system `g` (either
its date cannot parse, or its file already exists / fields invalid). -/
def savedSkip (item : Item) (g : FS) (now : DateTime) : Prop :=
  isValidToSave item = true →
    (createBlogPost item g now = none ∨ createBlogPost item g now = some (false, g))

/-! Concrete items (the test fixtures of `conftest.py`, plus variants)
used by witnesses and counterexamples. -/

/-- The valid blog-post fixture of the test suite. -/
def sampleItem : Item :=
  { title := "Test Article".toList
    link := "https://example.com/test".toList
    publishedDate := "2024-08-30T10:00:00Z".toList
    summary := "Test summary".toList
    aiCategory := "technical_deep_dives".toList
    sourceName := "Test Blog".toList
    sourceURL := "https://example.com".toList
    author := "Test Author".toList }

/-- A clock instant after the sample item's published date. -/
def sampleNow : DateTime := ⟨2025, 1, 1, 0, 0, 0⟩

/-- A later clock instant. -/
def laterNow : DateTime := ⟨2026, 1, 1, 0, 0, 0⟩

/-- A row with an empty Title (fails `BlogPostItem` validation). -/
def rowNoTitle : Item := { sampleItem with title := [] }

/-- An item whose Published Date is non-blank but unparseable. -/
def itemBadDate : Item := { sampleItem with publishedDate := "not-a-date".toList }

/-- An item whose Published Date lies in the future of `sampleNow`. -/
def itemFuture : Item :=
  { sampleItem with title := "Future Post".toList
                    publishedDate := "2030-01-01T00:00:00Z".toList }

/-- An item whose AI Category contains an embedded newline. -/
def itemNlCategory : Item :=
  { sampleItem with title := "T2".toList, aiCategory := "a\nb".toList }

/-- An item whose Title contains a line that closes the HTML comment. -/
def itemArrowTitle : Item := { sampleItem with title := "x\n-->".toList }

/-- An item whose Link smuggles a metadata line via an embedded newline. -/
def itemNlLink : Item :=
  { sampleItem with title := "T3".toList
                    link := "https://e.com\n.. category: hijack".toList }

/-- An item with AI Category `alpha`. -/
def itemAlpha : Item :=
  { sampleItem with title := "Alpha Post".toList, aiCategory := "alpha".toList }

/-- An item with AI Category `beta`. -/
def itemBeta : Item :=
  { sampleItem with title := "Beta Post".toList, aiCategory := "beta".toList }

/-- A pristine filters template containing both placeholders. -/
def sampleTemplate : Str :=
  "<nav>\n$\x7bDYNAMIC_CATEGORIES\x7d\n$\x7bDYNAMIC_SOURCES\x7d\n</nav>".toList

/-- The file system after creating the alpha post on an empty posts dir. -/
def fsAlpha : FS := ((createBlogPost itemAlpha [] sampleNow).getD (false, [])).2

/-- The file system after additionally creating the beta post. -/
def fsAlphaBeta : FS := ((createBlogPost itemBeta fsAlpha sampleNow).getD (false, [])).2

/-- The template after the filters stage has run once over `fsAlpha`. -/
def templateAfterRun1 : Str := (runFiltersStage fsAlpha (some sampleTemplate)).getD []

/-- The shape of a metadata line written by `create_blog_post`:
two dots, a space, the key, a colon, a space, the value. -/
def headerLine (k v : Str) : Str := '.' :: '.' :: ' ' :: (k ++ ':' :: ' ' :: v)

/-- The sample item's parsed published date. -/
def pdSample : DateTime := ⟨2024, 8, 30, 10, 0, 0⟩

theorem toNat_ofNat_small {n : Nat} (h : n < 55296) : (Char.ofNat n).toNat = n := by
  have hv : n.isValidChar := Or.inl h
  simp [Char.ofNat, hv, Char.ofNatAux, Char.toNat, UInt32.toNat, UInt32.ofNat',
    BitVec.toNat_ofNat]

theorem isSlugChar_toLower_of_isAlphanum {b : Char} (h : b.isAlphanum = true) :
    isSlugChar (Char.toLower b) = true := by
  simp only [Char.isAlphanum, Char.isAlpha, Char.isUpper, Char.isLower, Char.isDigit,
    Bool.or_eq_true, Bool.and_eq_true, decide_eq_true_eq] at h
  rcases h with (⟨h1, h2⟩ | ⟨h1, h2⟩) | ⟨h1, h2⟩
  · have h1' : 65 ≤ b.toNat := h1
    have h2' : b.toNat ≤ 90 := h2
    rw [Char.toLower]
    simp only [ge_iff_le, h1', h2', and_self, if_true]
    have hval : (Char.ofNat (b.toNat + 32)).toNat = b.toNat + 32 := toNat_ofNat_small (by omega)
    simp only [isSlugChar, Bool.or_eq_true, Bool.and_eq_true, decide_eq_true_eq, hval]
    exact Or.inl (Or.inl (Or.inl (by omega)))
  · have h1' : 97 ≤ b.toNat := h1
    have h2' : b.toNat ≤ 122 := h2
    rw [Char.toLower]
    have hn : ¬ (b.toNat ≥ 65 ∧ b.toNat ≤ 90) := by omega
    simp only [hn, if_false]
    simp only [isSlugChar, Bool.or_eq_true, Bool.and_eq_true, decide_eq_true_eq]
    exact Or.inl (Or.inl (Or.inl ⟨h1', h2'⟩))
  · have h1' : 48 ≤ b.toNat := h1
    have h2' : b.toNat ≤ 57 := h2
    rw [Char.toLower]
    have hn : ¬ (b.toNat ≥ 65 ∧ b.toNat ≤ 90) := by omega
    simp only [hn, if_false]
    simp only [isSlugChar, Bool.or_eq_true, Bool.and_eq_true, decide_eq_true_eq]
    exact Or.inl (Or.inl (Or.inr ⟨h1', h2'⟩))

theorem toLower_of_pyIsSpace {b : Char} (h : pyIsSpace b = true) : Char.toLower b = b := by
  simp only [pyIsSpace, Bool.or_eq_true, decide_eq_true_eq] at h
  rcases h with ((((h | h) | h) | h) | h) | h <;> subst h <;> decide

theorem mem_hyphenate {a : Char} {s : Str} (h : a ∈ hyphenate s) :
    a = '-' ∨ (a ∈ s ∧ isDashSpace a = false) := by
  induction s using hyphenate.induct with
  | case1 => simp [hyphenate] at h
  | case2 c hd =>
    simp only [hyphenate, if_pos hd] at h
    simp at h; left; exact h
  | case3 c hd =>
    simp only [hyphenate, if_neg hd] at h
    simp at h
    subst h
    right
    exact ⟨by simp, by simpa using hd⟩
  | case4 c d rest h1 h2 ih =>
    simp only [hyphenate, if_pos h1, if_pos h2] at h
    rcases ih h with h' | ⟨hm, hnd⟩
    · left; exact h'
    · right; exact ⟨List.mem_cons_of_mem _ hm, hnd⟩
  | case5 c d rest h1 h2 ih =>
    simp only [hyphenate, if_pos h1, if_neg h2] at h
    rcases List.mem_cons.mp h with h' | h'
    · left; exact h'
    · rcases ih h' with h'' | ⟨hm, hnd⟩
      · left; exact h''
      · right; exact ⟨List.mem_cons_of_mem _ hm, hnd⟩
  | case6 c d rest h1 ih =>
    simp only [hyphenate, if_neg h1] at h
    rcases List.mem_cons.mp h with h' | h'
    · subst h'
      right
      exact ⟨by simp, by simpa using h1⟩
    · rcases ih h' with h'' | ⟨hm, hnd⟩
      · left; exact h''
      · right; exact ⟨List.mem_cons_of_mem _ hm, hnd⟩

theorem mem_pyStrip {a : Char} {s : Str} (h : a ∈ pyStrip s) : a ∈ s := by
  have h1 : a ∈ pyLStrip s := by
    unfold pyStrip pyRStrip at h
    have h2 : a ∈ (pyLStrip s).reverse.dropWhile pyIsSpace := List.mem_reverse.mp h
    have h3 : a ∈ (pyLStrip s).reverse :=
      List.IsSuffix.subset (List.dropWhile_suffix pyIsSpace) h2
    exact List.mem_reverse.mp h3
  exact List.IsSuffix.subset (List.dropWhile_suffix pyIsSpace) h1

/-- C4: `slugify` yields a length-capped URL-safe identifier: at most 75
characters, each a lowercase letter, digit, hyphen or underscore. -/
theorem slugify_urlsafe (text : Str) :
    (slugify text).length ≤ 75 ∧ ∀ c ∈ slugify text, isSlugChar c = true := by
  constructor
  · exact (List.length_take 75 _).le.trans (Nat.min_le_left _ _)
  intro c hc
  unfold slugify at hc
  have hc' := List.mem_of_mem_take hc
  rcases mem_hyphenate hc' with h | ⟨hm, hnd⟩
  · subst h; rfl
  · unfold pyLower at hm
    rcases List.mem_map.mp hm with ⟨b, hb, rfl⟩
    have hbs := mem_pyStrip hb
    unfold keepWordSpaceDash at hbs
    have hkeep := (List.mem_filter.mp hbs).2
    simp only [Bool.or_eq_true, decide_eq_true_eq] at hkeep
    unfold isDashSpace at hnd
    simp only [Bool.or_eq_false_iff, decide_eq_false_iff_not] at hnd
    rcases hkeep with (hw | hsp) | hdash
    · unfold pyIsWord at hw
      simp only [Bool.or_eq_true, decide_eq_true_eq] at hw
      rcases hw with halnum | hund
      · exact isSlugChar_toLower_of_isAlphanum halnum
      · subst hund; decide
    · rw [toLower_of_pyIsSpace hsp] at hnd
      exact absurd hsp (by simp [hnd.2])
    · subst hdash
      exact absurd (by decide : Char.toLower '-' = '-') hnd.1

theorem isValidToSave_def (i : Item) :
    isValidToSave i = (!(pyStrip i.aiCategory).isEmpty && !(pyStrip i.summary).isEmpty) := rfl

theorem fsLookup_cons (k : PathKey) (v : Str) (fs : FS) (q : PathKey) :
    fsLookup ((k, v) :: fs) q = if k = q then some v else fsLookup fs q := rfl

theorem createBlogPost_none_iff (item : Item) (fs : FS) (now : DateTime) :
    createBlogPost item fs now = none ↔
      fromisoformat (replaceZ item.publishedDate) = none := by
  unfold createBlogPost
  cases hp : fromisoformat (replaceZ item.publishedDate) with
  | none => simp
  | some d =>
    simp only
    cases hl : fsLookup fs (postKey item now d) with
    | some v => simp
    | none =>
      simp only
      split <;> simp

theorem createBlogPost_skip_exists {item : Item} {fs : FS} {now : DateTime} {d : DateTime}
    {v : Str} (hd : fromisoformat (replaceZ item.publishedDate) = some d)
    (hl : fsLookup fs (postKey item now d) = some v) :
    createBlogPost item fs now = some (false, fs) := by
  unfold createBlogPost
  simp only [hd, hl]

theorem createBlogPost_inv {item : Item} {fs : FS} {now : DateTime} {b : Bool} {fs' : FS}
    (h : createBlogPost item fs now = some (b, fs')) :
    ∃ d, fromisoformat (replaceZ item.publishedDate) = some d ∧
      ((b = false ∧ fs' = fs ∧
          ((∃ v, fsLookup fs (postKey item now d) = some v) ∨ isValidToSave item = false)) ∨
       (b = true ∧ fsLookup fs (postKey item now d) = none ∧ isValidToSave item = true ∧
          fs' = (postKey item now d,
            postContent item (clampDate now d) (slugify item.title)) :: fs)) := by
  unfold createBlogPost at h
  split at h
  · cases h
  · rename_i d hp
    split at h
    · rename_i v hl
      cases h
      exact ⟨d, hp, Or.inl ⟨rfl, rfl, Or.inl ⟨v, hl⟩⟩⟩
    · rename_i hl
      split at h
      · rename_i hcond
        cases h
        exact ⟨d, hp, Or.inr ⟨rfl, hl, by rw [isValidToSave_def]; exact hcond, rfl⟩⟩
      · rename_i hcond
        cases h
        refine ⟨d, hp, Or.inl ⟨rfl, rfl, Or.inr ?_⟩⟩
        rw [isValidToSave_def]
        simpa using hcond

theorem fsExt_refl (f : FS) : fsExt f f := fun _ h => h

theorem createBlogPost_fsExt {item : Item} {fs : FS} {now : DateTime} {b : Bool} {fs' : FS}
    (h : createBlogPost item fs now = some (b, fs')) : fsExt fs fs' := by
  rcases createBlogPost_inv h with ⟨d, _, hcase⟩
  rcases hcase with ⟨_, rfl, _⟩ | ⟨_, _, _, rfl⟩
  · exact fsExt_refl _
  · intro k hk
    rw [fsLookup_cons]
    split
    · rfl
    · exact hk

theorem saveItemsToFiles_fsExt (items : List Item) (fs : FS) (now : DateTime) :
    fsExt fs (saveItemsToFiles items fs now).2.2 := by
  induction items generalizing fs with
  | nil => exact fsExt_refl fs
  | cons item rest ih =>
    simp only [saveItemsToFiles]
    split
    · exact ih fs
    · cases hc : createBlogPost item fs now with
      | none => exact ih fs
      | some p =>
        obtain ⟨created, fs1⟩ := p
        intro k hk
        exact ih fs1 k (createBlogPost_fsExt hc k hk)

theorem savedSkip_mono {item : Item} {g g' : FS} {now : DateTime}
    (hs : savedSkip item g now) (he : fsExt g g') : savedSkip item g' now := by
  intro hv
  rcases hs hv with hn | hf
  · left
    rw [createBlogPost_none_iff] at hn ⊢
    exact hn
  · rcases createBlogPost_inv hf with ⟨d, hd, hcase⟩
    rcases hcase with ⟨_, _, hreason⟩ | ⟨hb, _, _, _⟩
    · rcases hreason with ⟨v, hlk⟩ | hinv
      · right
        have hsome : (fsLookup g' (postKey item now d)).isSome = true := he _ (by simp [hlk])
        rcases Option.isSome_iff_exists.mp hsome with ⟨v', hlk'⟩
        exact createBlogPost_skip_exists hd hlk'
      · exact absurd hv (by simp [hinv])
    · cases hb

theorem saveItemsToFiles_establishes (items : List Item) (fs : FS) (now : DateTime) :
    ∀ item ∈ items, savedSkip item (saveItemsToFiles items fs now).2.2 now := by
  induction items generalizing fs with
  | nil => intro item h; cases h
  | cons head rest ih =>
    intro item hmem
    rcases List.mem_cons.mp hmem with rfl | hmem'
    · -- the head item is settled by its own processing step
      simp only [saveItemsToFiles]
      split
      · rename_i hinvalid
        intro hv
        exact absurd hv (by simpa using hinvalid)
      · cases hc : createBlogPost item fs now with
        | none =>
          intro _
          left
          rw [createBlogPost_none_iff] at hc ⊢
          exact hc
        | some p =>
          obtain ⟨created, fs1⟩ := p
          have hext : fsExt fs1 (saveItemsToFiles rest fs1 now).2.2 :=
            saveItemsToFiles_fsExt rest fs1 now
          rcases createBlogPost_inv hc with ⟨d, hd, hcase⟩
          rcases hcase with ⟨_, rfl, hreason⟩ | ⟨_, _, _, rfl⟩
          · rcases hreason with ⟨v, hlk⟩ | hinv
            · refine savedSkip_mono ?_ hext
              intro _
              right
              exact createBlogPost_skip_exists hd hlk
            · intro hv
              exact absurd hv (by simp [hinv])
          · refine savedSkip_mono ?_ hext
            intro _
            right
            exact createBlogPost_skip_exists hd (by rw [fsLookup_cons, if_pos rfl])
    · -- items in the tail are settled by the recursive run
      simp only [saveItemsToFiles]
      split
      · exact ih fs item hmem'
      · cases hc : createBlogPost head fs now with
        | none => exact ih fs item hmem'
        | some p =>
          obtain ⟨created, fs1⟩ := p
          exact ih fs1 item hmem'

theorem saveItemsToFiles_of_savedSkip (items : List Item) (g : FS) (now : DateTime)
    (h : ∀ item ∈ items, savedSkip item g now) :
    saveItemsToFiles items g now = (0, items.length, g) := by
  induction items with
  | nil => rfl
  | cons head rest ih =>
    have hrest : saveItemsToFiles rest g now = (0, rest.length, g) :=
      ih (fun item hm => h item (List.mem_cons_of_mem _ hm))
    simp only [saveItemsToFiles]
    split
    · simp [hrest]
    · rename_i hvalid
      have hv : isValidToSave head = true := by simpa using hvalid
      rcases h head (List.mem_cons_self _ _) hv with hn | hf
      · simp [hn, hrest]
      · simp [hf, hrest]

/-- C2: the save operation is idempotent: a second run of
`save_items_to_files` on the same items against the resulting posts
directory creates nothing (every item is counted as skipped, returning
`False` for it), and leaves the file system — hence the bytes of every
previously written file — unchanged. -/
theorem saveItemsToFiles_idempotent (items : List Item) (fs : FS) (now : DateTime) :
    saveItemsToFiles items (saveItemsToFiles items fs now).2.2 now =
      (0, items.length, (saveItemsToFiles items fs now).2.2) :=
  saveItemsToFiles_of_savedSkip items _ now (saveItemsToFiles_establishes items fs now)

theorem saveItemsToFiles_processed (items : List Item) (fs : FS) (now : DateTime) :
    (saveItemsToFiles items fs now).2.1 = items.length := by
  induction items generalizing fs with
  | nil => rfl
  | cons item rest ih =>
    simp only [saveItemsToFiles]
    split
    · simp [ih]
    · cases hc : createBlogPost item fs now with
      | none => simp [ih]
      | some p =>
        obtain ⟨created, fs1⟩ := p
        simp [ih]

/-- C7: a run always completes: a row failing validation is dropped and
parsing continues with the remaining rows; `save_items_to_files`
processes every item (the processed count equals the number of items),
and an exception inside `create_blog_post` (here: an unparseable date) is
caught, so the remaining items are still processed and the counts are
still returned. -/
theorem pipeline_total (rows : List Item) (r : Item) (items : List Item) (item : Item)
    (fs : FS) (now : DateTime)
    (hbad : mkBlogPostItem r = none)
    (hval : isValidToSave item = true)
    (herr : createBlogPost item fs now = none) :
    parseCsvToObjects (r :: rows) = parseCsvToObjects rows ∧
    (saveItemsToFiles items fs now).2.1 = items.length ∧
    saveItemsToFiles (item :: items) fs now =
      ((saveItemsToFiles items fs now).1,
       (saveItemsToFiles items fs now).2.1 + 1,
       (saveItemsToFiles items fs now).2.2) := by
  refine ⟨?_, saveItemsToFiles_processed items fs now, ?_⟩
  · simp [parseCsvToObjects, hbad]
  · simp only [saveItemsToFiles]
    split
    · rename_i hinv
      exact absurd hval (by simpa using hinv)
    · simp [herr]

theorem pipeline_total_witness :
    parseCsvToObjects [rowNoTitle, sampleItem] = parseCsvToObjects [sampleItem] ∧
    (saveItemsToFiles [itemBadDate] [] sampleNow).2.1 = [itemBadDate].length ∧
    saveItemsToFiles [itemBadDate, itemBadDate] [] sampleNow =
      ((saveItemsToFiles [itemBadDate] [] sampleNow).1,
       (saveItemsToFiles [itemBadDate] [] sampleNow).2.1 + 1,
       (saveItemsToFiles [itemBadDate] [] sampleNow).2.2) :=
  pipeline_total [sampleItem] rowNoTitle [itemBadDate] itemBadDate [] sampleNow
    (by decide) (by decide) (by decide)

/-- C6, counterexample: `create_blog_post` is not a function of its
inputs and the pre-existing file-system state alone: with identical item
and file system, two runs at different clock instants produce different
results (a future-dated item lands in a different date directory). -/
theorem stage_depends_on_clock :
    createBlogPost itemFuture [] sampleNow ≠ createBlogPost itemFuture [] laterNow := by
  decide

/-- C6, amended: each stage is deterministic over its inputs, the
file-system state and the clock; and for an item whose parsed published
date is not in the future at either instant, `create_blog_post` is
clock-independent. -/
theorem createBlogPost_clock_independent (item : Item) (fs : FS) (now now' d : DateTime)
    (hd : fromisoformat (replaceZ item.publishedDate) = some d)
    (h1 : DateTime.ltb now d = false) (h2 : DateTime.ltb now' d = false) :
    createBlogPost item fs now = createBlogPost item fs now' := by
  unfold createBlogPost
  simp only [hd, postKey, clampDate, h1, h2, Bool.false_eq_true, if_false]

theorem createBlogPost_clock_independent_witness :
    createBlogPost sampleItem [] sampleNow = createBlogPost sampleItem [] laterNow :=
  createBlogPost_clock_independent sampleItem [] sampleNow laterNow
    ⟨2024, 8, 30, 10, 0, 0⟩ (by decide) (by decide) (by decide)

theorem createBlogPost_creates {item : Item} {fs : FS} {now d : DateTime}
    (hd : fromisoformat (replaceZ item.publishedDate) = some d)
    (hl : fsLookup fs (postKey item now d) = none)
    (hv : isValidToSave item = true) :
    createBlogPost item fs now = some (true,
      (postKey item now d, postContent item (clampDate now d) (slugify item.title)) :: fs) := by
  unfold createBlogPost
  rw [isValidToSave_def] at hv
  simp only [hd, hl, hv, if_true]

/-- C10: when the Published Date parses to an instant later than the
clock, the post's date is clamped to the clock, and both the date
directory and the header date use the clamped date; otherwise the given
date determines both. -/
theorem createBlogPost_clamps (item : Item) (fs : FS) (now d : DateTime)
    (hd : fromisoformat (replaceZ item.publishedDate) = some d)
    (hl : fsLookup fs (postKey item now d) = none)
    (hv : isValidToSave item = true) :
    createBlogPost item fs now = some (true,
      ((formatDate (clampDate now d), slugify item.title ++ ".md".toList),
        postContent item (clampDate now d) (slugify item.title)) :: fs) ∧
    (("\n.. date: ".toList ++ formatDateTimeZ (clampDate now d)) <:+:
        postContent item (clampDate now d) (slugify item.title)) ∧
    (DateTime.ltb now d = true → clampDate now d = now) ∧
    (DateTime.ltb now d = false → clampDate now d = d) := by
  refine ⟨createBlogPost_creates hd hl hv, ?_, ?_, ?_⟩
  · refine ⟨"<!--\n.. title: ".toList ++ escapeQuotes item.title ++
      "\n.. slug: ".toList ++ slugify item.title,
      "\n.. tags: ".toList ++ tagsStr item.sourceName ++
      "\n.. category: ".toList ++ categoryOf item.aiCategory ++
      "\n.. link: ".toList ++ item.link ++
      "\n.. description: ".toList ++ postDescription item.summary ++
      "\n.. type: text\n-->\n\n".toList ++ formatMarkdownContent item, ?_⟩
    simp only [postContent, List.append_assoc]
  · intro h; simp [clampDate, h]
  · intro h; simp [clampDate, h]

theorem createBlogPost_clamps_witness :
    createBlogPost itemFuture [] sampleNow = some (true,
      ((formatDate (clampDate sampleNow ⟨2030, 1, 1, 0, 0, 0⟩),
        slugify itemFuture.title ++ ".md".toList),
        postContent itemFuture (clampDate sampleNow ⟨2030, 1, 1, 0, 0, 0⟩)
          (slugify itemFuture.title)) :: []) ∧
    (("\n.. date: ".toList ++ formatDateTimeZ (clampDate sampleNow ⟨2030, 1, 1, 0, 0, 0⟩)) <:+:
        postContent itemFuture (clampDate sampleNow ⟨2030, 1, 1, 0, 0, 0⟩)
          (slugify itemFuture.title)) ∧
    (DateTime.ltb sampleNow ⟨2030, 1, 1, 0, 0, 0⟩ = true →
      clampDate sampleNow ⟨2030, 1, 1, 0, 0, 0⟩ = sampleNow) ∧
    (DateTime.ltb sampleNow ⟨2030, 1, 1, 0, 0, 0⟩ = false →
      clampDate sampleNow ⟨2030, 1, 1, 0, 0, 0⟩ = ⟨2030, 1, 1, 0, 0, 0⟩) :=
  createBlogPost_clamps itemFuture [] sampleNow ⟨2030, 1, 1, 0, 0, 0⟩
    (by decide) (by decide) (by decide)

/-- C5: every created content file begins with the structured comment
block: it starts with `<!--` and a `.. title:` line, and records the
item's date, tags, category and description as `.. key: value` lines
inside the comment, which closes with `-->` before the body. -/
theorem post_header_structured (item : Item) (fs : FS) (now d : DateTime)
    (hd : fromisoformat (replaceZ item.publishedDate) = some d)
    (hl : fsLookup fs (postKey item now d) = none)
    (hv : isValidToSave item = true) :
    ∃ c, createBlogPost item fs now = some (true, (postKey item now d, c) :: fs) ∧
      (("<!--\n.. title: ".toList ++ escapeQuotes item.title) <+: c) ∧
      (("\n.. date: ".toList ++ formatDateTimeZ (clampDate now d)) <:+: c) ∧
      (("\n.. tags: ".toList ++ tagsStr item.sourceName ++
        "\n.. category: ".toList ++ categoryOf item.aiCategory ++
        "\n.. link: ".toList ++ item.link) <:+: c) ∧
      (("\n.. description: ".toList ++ postDescription item.summary ++
        "\n.. type: text\n-->\n\n".toList) <:+: c) := by
  refine ⟨postContent item (clampDate now d) (slugify item.title),
    createBlogPost_creates hd hl hv, ?_, ?_, ?_, ?_⟩
  · refine ⟨"\n.. slug: ".toList ++ slugify item.title ++
      "\n.. date: ".toList ++ formatDateTimeZ (clampDate now d) ++
      "\n.. tags: ".toList ++ tagsStr item.sourceName ++
      "\n.. category: ".toList ++ categoryOf item.aiCategory ++
      "\n.. link: ".toList ++ item.link ++
      "\n.. description: ".toList ++ postDescription item.summary ++
      "\n.. type: text\n-->\n\n".toList ++ formatMarkdownContent item, ?_⟩
    simp only [postContent, List.append_assoc]
  · refine ⟨"<!--\n.. title: ".toList ++ escapeQuotes item.title ++
      "\n.. slug: ".toList ++ slugify item.title,
      "\n.. tags: ".toList ++ tagsStr item.sourceName ++
      "\n.. category: ".toList ++ categoryOf item.aiCategory ++
      "\n.. link: ".toList ++ item.link ++
      "\n.. description: ".toList ++ postDescription item.summary ++
      "\n.. type: text\n-->\n\n".toList ++ formatMarkdownContent item, ?_⟩
    simp only [postContent, List.append_assoc]
  · refine ⟨"<!--\n.. title: ".toList ++ escapeQuotes item.title ++
      "\n.. slug: ".toList ++ slugify item.title ++
      "\n.. date: ".toList ++ formatDateTimeZ (clampDate now d),
      "\n.. description: ".toList ++ postDescription item.summary ++
      "\n.. type: text\n-->\n\n".toList ++ formatMarkdownContent item, ?_⟩
    simp only [postContent, List.append_assoc]
  · refine ⟨"<!--\n.. title: ".toList ++ escapeQuotes item.title ++
      "\n.. slug: ".toList ++ slugify item.title ++
      "\n.. date: ".toList ++ formatDateTimeZ (clampDate now d) ++
      "\n.. tags: ".toList ++ tagsStr item.sourceName ++
      "\n.. category: ".toList ++ categoryOf item.aiCategory ++
      "\n.. link: ".toList ++ item.link,
      formatMarkdownContent item, ?_⟩
    simp only [postContent, List.append_assoc]

theorem post_header_structured_witness :
    ∃ c, createBlogPost sampleItem [] sampleNow =
        some (true, (postKey sampleItem sampleNow ⟨2024, 8, 30, 10, 0, 0⟩, c) :: []) ∧
      (("<!--\n.. title: ".toList ++ escapeQuotes sampleItem.title) <+: c) ∧
      (("\n.. date: ".toList ++
          formatDateTimeZ (clampDate sampleNow ⟨2024, 8, 30, 10, 0, 0⟩)) <:+: c) ∧
      (("\n.. tags: ".toList ++ tagsStr sampleItem.sourceName ++
        "\n.. category: ".toList ++ categoryOf sampleItem.aiCategory ++
        "\n.. link: ".toList ++ sampleItem.link) <:+: c) ∧
      (("\n.. description: ".toList ++ postDescription sampleItem.summary ++
        "\n.. type: text\n-->\n\n".toList) <:+: c) :=
  post_header_structured sampleItem [] sampleNow ⟨2024, 8, 30, 10, 0, 0⟩
    (by decide) (by decide) (by decide)

theorem escapeQuotes_append (a b : Str) :
    escapeQuotes (a ++ b) = escapeQuotes a ++ escapeQuotes b := by
  induction a with
  | nil => rfl
  | cons c r ih =>
    simp only [List.cons_append, escapeQuotes, ih]
    split <;> simp [ih]

/-- C9: the description header value is the HTML-cleaned Summary
truncated to its first 150 characters with `'...'` appended
unconditionally and double quotes escaped; its pre-escaping length is
`min 150 |clean| + 3`, hence never more than 153 (the `+ 3` is added even
when the cleaned summary is shorter than 150 characters). -/
theorem description_truncation (item : Item) (pd : DateTime) (slug : Str) :
    postDescription item.summary =
      escapeQuotes ((cleanHtmlContent item.summary).take 150 ++ ('.' :: '.' :: '.' :: [])) ∧
    (("\n.. description: ".toList ++
        escapeQuotes ((cleanHtmlContent item.summary).take 150 ++ ('.' :: '.' :: '.' :: [])) ++
        "\n.. type: text\n-->\n\n".toList) <:+: postContent item pd slug) ∧
    (∃ pre, postDescription item.summary = pre ++ ('.' :: '.' :: '.' :: [])) ∧
    ((cleanHtmlContent item.summary).take 150 ++ ('.' :: '.' :: '.' :: [])).length =
      min 150 (cleanHtmlContent item.summary).length + 3 ∧
    min 150 (cleanHtmlContent item.summary).length + 3 ≤ 153 := by
  refine ⟨rfl, ?_, ?_, ?_, ?_⟩
  · refine ⟨"<!--\n.. title: ".toList ++ escapeQuotes item.title ++
      "\n.. slug: ".toList ++ slug ++
      "\n.. date: ".toList ++ formatDateTimeZ pd ++
      "\n.. tags: ".toList ++ tagsStr item.sourceName ++
      "\n.. category: ".toList ++ categoryOf item.aiCategory ++
      "\n.. link: ".toList ++ item.link,
      formatMarkdownContent item, ?_⟩
    simp only [postContent, postDescription, List.append_assoc]
  · refine ⟨escapeQuotes ((cleanHtmlContent item.summary).take 150), ?_⟩
    rw [postDescription, escapeQuotes_append]
    rfl
  · simp [List.length_take]
  · have hmin := Nat.min_le_left 150 (cleanHtmlContent item.summary).length
    omega

/-- C1, counterexample: a row whose Published Date is non-blank but
unparseable passes `BlogPostItem` validation, has non-blank Summary and
AI Category, and no file exists anywhere (the file system is empty) —
yet no content file is materialized: the `ValueError` from
`datetime.fromisoformat` aborts the item. -/
theorem row_materialization_cex :
    requiredOk itemBadDate = true ∧ isValidToSave (stripItem itemBadDate) = true ∧
      saveItemsToFiles (parseCsvToObjects [itemBadDate]) [] sampleNow = (0, 1, []) := by
  decide

/-- C1, amended: a parsed CSV row is materialized at
`posts_dir/<date>/<slug>.md` iff it passes validation, its Summary and
AI Category are non-blank, its Published Date parses (the amendment),
and no file exists at that path; otherwise it is skipped with the file
system unchanged. -/
theorem row_materialization_iff (r : Item) (fs : FS) (now : DateTime) :
    (rowCreatable r fs now = true →
      ∃ d, fromisoformat (replaceZ (pyStrip r.publishedDate)) = some d ∧
        saveItemsToFiles (parseCsvToObjects [r]) fs now =
          (1, 1, (postKey (stripItem r) now d,
            postContent (stripItem r) (clampDate now d) (slugify (pyStrip r.title))) :: fs)) ∧
    (rowCreatable r fs now = false →
      saveItemsToFiles (parseCsvToObjects [r]) fs now =
        (0, (parseCsvToObjects [r]).length, fs)) := by
  constructor
  · intro h
    simp only [rowCreatable, Bool.and_eq_true] at h
    obtain ⟨⟨hreq, hval⟩, hmatch⟩ := h
    split at hmatch
    · cases hmatch
    · rename_i d hp
      refine ⟨d, hp, ?_⟩
      have hparse : parseCsvToObjects [r] = [stripItem r] := by
        simp [parseCsvToObjects, mkBlogPostItem, hreq]
      have hd' : fromisoformat (replaceZ (stripItem r).publishedDate) = some d := hp
      have hl : fsLookup fs (postKey (stripItem r) now d) = none :=
        Option.isNone_iff_eq_none.mp hmatch
      have hcr := createBlogPost_creates hd' hl hval
      rw [hparse]
      simp only [saveItemsToFiles, hval, Bool.not_true, hcr]
      simp [stripItem]
  · intro h
    by_cases hreq : requiredOk r = true
    · have hparse : parseCsvToObjects [r] = [stripItem r] := by
        simp [parseCsvToObjects, mkBlogPostItem, hreq]
      rw [hparse]
      by_cases hval : isValidToSave (stripItem r) = true
      · cases hp : fromisoformat (replaceZ (pyStrip r.publishedDate)) with
        | none =>
          have hn : createBlogPost (stripItem r) fs now = none :=
            (createBlogPost_none_iff _ _ _).mpr hp
          simp [saveItemsToFiles, hval, hn]
        | some d =>
          have hlk : ∃ v, fsLookup fs (postKey (stripItem r) now d) = some v := by
            simp only [rowCreatable, hreq, hval, Bool.true_and, hp] at h
            rcases ho : fsLookup fs (postKey (stripItem r) now d) with _ | v
            · rw [ho] at h; cases h
            · exact ⟨v, rfl⟩
          obtain ⟨v, hv⟩ := hlk
          have hskip : createBlogPost (stripItem r) fs now = some (false, fs) :=
            createBlogPost_skip_exists hp hv
          simp [saveItemsToFiles, hval, hskip]
      · simp [saveItemsToFiles, hval]
    · have hparse : parseCsvToObjects [r] = [] := by
        simp [parseCsvToObjects, mkBlogPostItem, hreq]
      rw [hparse]
      rfl

theorem row_materialization_iff_witness :
    (∃ d, fromisoformat (replaceZ (pyStrip sampleItem.publishedDate)) = some d ∧
       saveItemsToFiles (parseCsvToObjects [sampleItem]) [] sampleNow =
         (1, 1, (postKey (stripItem sampleItem) sampleNow d,
           postContent (stripItem sampleItem) (clampDate sampleNow d)
             (slugify (pyStrip sampleItem.title))) :: [])) ∧
    saveItemsToFiles (parseCsvToObjects [itemBadDate]) [] sampleNow =
      (0, (parseCsvToObjects [itemBadDate]).length, []) :=
  ⟨(row_materialization_iff sampleItem [] sampleNow).1 (by decide),
   (row_materialization_iff itemBadDate [] sampleNow).2 (by decide)⟩


theorem insertSortedStr_perm (x : Str) (l : List Str) :
    (insertSortedStr x l).Perm (x :: l) := by
  induction l with
  | nil => exact List.Perm.refl _
  | cons y ys ih =>
    simp only [insertSortedStr]
    split
    · exact List.Perm.refl _
    · exact (List.Perm.cons y ih).trans (List.Perm.swap x y ys)

theorem sortStrs_perm (l : List Str) : (sortStrs l).Perm l := by
  induction l with
  | nil => exact List.Perm.refl _
  | cons x xs ih =>
    exact (insertSortedStr_perm x (sortStrs xs)).trans (List.Perm.cons x ih)

set_option maxRecDepth 100000 in
/-- C3, counterexample: the filter fragment is not regenerated from the
corpus on each run.  After a first run substitutes the placeholders, a
second run on a grown corpus (now also containing category `beta`)
leaves the template byte-for-byte unchanged, with no button for `beta`;
and on an empty corpus the stage does not rewrite the template at all,
leaving the placeholder in place. -/
theorem filters_not_regenerated_cex :
    runFiltersStage fsAlphaBeta (some templateAfterRun1) = some templateAfterRun1 ∧
    "beta".toList ∈ (scanExistingPosts fsAlphaBeta).1 ∧
    ¬ ((catButton ("beta".toList)) <:+: templateAfterRun1) ∧
    runFiltersStage [] (some sampleTemplate) = some sampleTemplate ∧
    (catPlaceholder <:+: sampleTemplate) := by
  decide

/-- C3, amended: on an invocation whose corpus scan finds at least one
category or source (and whose template file exists), the stage rewrites
the template by substituting every remaining placeholder occurrence with
the button lists built from exactly the scanned sets: one button per
category and one per source, in sorted order (the sorted lists are
permutations of the scan results).  Because the substituted text
overwrites the template in place, the placeholders are consumed by the
first run; later runs leave the template unchanged, and an empty corpus
leaves it untouched (see the counterexample). -/
theorem filters_stage_rewrites (fs : FS) (t : Str)
    (h : ¬ (((scanExistingPosts fs).1.isEmpty && (scanExistingPosts fs).2.isEmpty) = true)) :
    runFiltersStage fs (some t) =
      some (updateFiltersTemplate t (scanExistingPosts fs).1 (scanExistingPosts fs).2) ∧
    (sortStrs (scanExistingPosts fs).1).Perm (scanExistingPosts fs).1 ∧
    (sortStrs (scanExistingPosts fs).2).Perm (scanExistingPosts fs).2 := by
  refine ⟨?_, sortStrs_perm _, sortStrs_perm _⟩
  simp [runFiltersStage, h]

theorem filters_stage_rewrites_witness :
    runFiltersStage fsAlpha (some sampleTemplate) =
      some (updateFiltersTemplate sampleTemplate
        (scanExistingPosts fsAlpha).1 (scanExistingPosts fsAlpha).2) ∧
    (sortStrs (scanExistingPosts fsAlpha).1).Perm (scanExistingPosts fsAlpha).1 ∧
    (sortStrs (scanExistingPosts fsAlpha).2).Perm (scanExistingPosts fsAlpha).2 :=
  filters_stage_rewrites fsAlpha sampleTemplate (by decide)


theorem dropWhile_head_false {α : Type} {p : α → Bool} {c : α} {t : List α} (h : p c = false) :
    List.dropWhile p (c :: t) = c :: t := by
  simp [List.dropWhile, h]

theorem pyLStrip_head_false {c : Char} {t : Str} (h : pyIsSpace c = false) :
    pyLStrip (c :: t) = c :: t := dropWhile_head_false h

theorem pyStrip_of_forall {s : Str} (h : ∀ c ∈ s, pyIsSpace c = false) : pyStrip s = s := by
  have h1 : pyLStrip s = s := by
    cases s with
    | nil => rfl
    | cons c t => exact pyLStrip_head_false (h c (List.mem_cons_self _ _))
  have h2 : pyRStrip s = s := by
    unfold pyRStrip
    cases hs : s.reverse with
    | nil => simp [List.reverse_eq_nil_iff.mp hs]
    | cons c t =>
      have hc : c ∈ s := by
        rw [← List.mem_reverse, hs]; exact List.mem_cons_self _ _
      rw [dropWhile_head_false (h c hc), ← hs, List.reverse_reverse]
  unfold pyStrip
  rw [h1, h2]

theorem pyRStrip_append_nonspace {a : Str} {c : Char} (h : pyIsSpace c = false) :
    pyRStrip (a ++ [c]) = a ++ [c] := by
  unfold pyRStrip
  rw [List.reverse_append]
  simp only [List.reverse_cons, List.reverse_nil, List.nil_append, List.cons_append]
  rw [dropWhile_head_false h]
  simp

theorem pyRStrip_append_space {a : Str} {c : Char} (h : pyIsSpace c = true) :
    pyRStrip (a ++ [c]) = pyRStrip a := by
  unfold pyRStrip
  rw [List.reverse_append]
  simp only [List.reverse_cons, List.reverse_nil, List.nil_append, List.cons_append]
  simp [List.dropWhile, h]

theorem pyLStrip_cons_space (v : Str) : pyLStrip (' ' :: v) = pyLStrip v := by
  simp [pyLStrip, List.dropWhile]; rfl

theorem pyStrip_cons_space (v : Str) : pyStrip (' ' :: v) = pyStrip v := by
  unfold pyStrip
  rw [pyLStrip_cons_space]

theorem pyStrip_self_parts {v : Str} (h : pyStrip v = v) :
    pyLStrip v = v ∧ pyRStrip v = v := by
  have hlen1 : (pyLStrip v).length ≤ v.length := (List.dropWhile_sublist _).length_le
  have hlen2 : (pyRStrip (pyLStrip v)).length ≤ (pyLStrip v).length := by
    unfold pyRStrip
    calc ((pyLStrip v).reverse.dropWhile pyIsSpace).reverse.length
        = ((pyLStrip v).reverse.dropWhile pyIsSpace).length := List.length_reverse _
      _ ≤ (pyLStrip v).reverse.length := (List.dropWhile_sublist _).length_le
      _ = (pyLStrip v).length := List.length_reverse _
  have heq : (pyStrip v).length = v.length := by rw [h]
  unfold pyStrip at heq
  have hL : (pyLStrip v).length = v.length := by omega
  have hLeq : pyLStrip v = v :=
    (List.dropWhile_suffix pyIsSpace).eq_of_length hL
  refine ⟨hLeq, ?_⟩
  have := h
  unfold pyStrip at this
  rw [hLeq] at this
  exact this

theorem pyRStrip_last_nonspace {v : Str} (h : pyRStrip v = v) (hne : v ≠ []) :
    ∃ a c, v = a ++ [c] ∧ pyIsSpace c = false := by
  cases hs : v.reverse with
  | nil => exact absurd (by simpa using congrArg List.reverse hs) hne
  | cons c t =>
    refine ⟨t.reverse, c, ?_, ?_⟩
    · have := congrArg List.reverse hs
      simpa using this
    · by_contra hc
      have hc' : pyIsSpace c = true := by
        rcases Bool.eq_false_or_eq_true (pyIsSpace c) with h' | h'
        · exact h'
        · exact absurd h' hc
      have : pyRStrip v = (t.dropWhile pyIsSpace).reverse := by
        unfold pyRStrip
        rw [hs]
        simp [List.dropWhile, hc']
      rw [h] at this
      have hlen : v.length ≤ t.length := by
        have h1 : v.length = (t.dropWhile pyIsSpace).length := by
          rw [this]; simp
        have h2 : (t.dropWhile pyIsSpace).length ≤ t.length :=
          (List.dropWhile_sublist pyIsSpace).length_le
        omega
      have hlen2 : v.length = t.length + 1 := by
        have := congrArg List.length hs
        simpa using this
      omega

theorem dropWhile_append' (p : Char → Bool) (l1 l2 : Str) :
    List.dropWhile p (l1 ++ l2) =
      if (List.dropWhile p l1).isEmpty then List.dropWhile p l2
      else List.dropWhile p l1 ++ l2 := by
  induction l1 with
  | nil => simp
  | cons c t ih =>
    by_cases hc : p c = true
    · simp only [List.cons_append, List.dropWhile, hc]
      exact ih
    · have hc' : p c = false := by
        rcases Bool.eq_false_or_eq_true (p c) with h' | h'
        · exact absurd h' hc
        · exact h'
      simp [List.dropWhile, hc']

theorem pyRStrip_append (a b : Str) :
    pyRStrip (a ++ b) =
      if (pyRStrip b).isEmpty then pyRStrip a else a ++ pyRStrip b := by
  unfold pyRStrip
  rw [List.reverse_append, dropWhile_append']
  have hempty : (List.dropWhile pyIsSpace b.reverse).isEmpty =
      ((List.dropWhile pyIsSpace b.reverse).reverse).isEmpty := by
    cases List.dropWhile pyIsSpace b.reverse <;> simp
  split
  · rename_i hcase
    rw [if_pos (by rw [← hempty]; exact hcase)]
  · rename_i hcase
    rw [if_neg (by rw [← hempty]; exact hcase)]
    simp


theorem takeWhile_until_colon (rest : Str) : ∀ {k : Str}, ':' ∉ k →
    (k ++ ':' :: rest).takeWhile (fun c => !(c == ':')) = k := by
  intro k
  induction k with
  | nil => intro _; simp [List.takeWhile]
  | cons c t ih =>
    intro hkc
    have hc : (c == ':') = false :=
      beq_eq_false_iff_ne.mpr (fun h => hkc (h ▸ List.mem_cons_self _ _))
    simp only [List.cons_append, List.takeWhile, hc]
    simp [ih (fun h => hkc (List.mem_cons_of_mem _ h))]

theorem dropWhile_until_colon (rest : Str) : ∀ {k : Str}, ':' ∉ k →
    (k ++ ':' :: rest).dropWhile (fun c => !(c == ':')) = ':' :: rest := by
  intro k
  induction k with
  | nil => intro _; simp [List.dropWhile]
  | cons c t ih =>
    intro hkc
    have hc : (c == ':') = false :=
      beq_eq_false_iff_ne.mpr (fun h => hkc (h ▸ List.mem_cons_self _ _))
    simp only [List.cons_append, List.dropWhile, hc]
    simp [ih (fun h => hkc (List.mem_cons_of_mem _ h))]

theorem contains_of_mem {l : Str} {a : Char} (h : a ∈ l) : l.contains a = true := by
  simpa using h

theorem parseMetaLine_eval (acc : List (Str × Str)) (k rest : Str)
    (hks : ∀ c ∈ k, pyIsSpace c = false) (hkc : ':' ∉ k) :
    parseMetaLine acc ('.' :: '.' :: ' ' :: (k ++ ':' :: rest)) =
      upsert acc k (pyStrip (pyRStrip rest)) := by
  have hl : pyStrip ('.' :: '.' :: ' ' :: (k ++ ':' :: rest)) =
      '.' :: '.' :: ' ' :: (k ++ ':' :: pyRStrip rest) := by
    unfold pyStrip
    rw [pyLStrip_head_false (by decide)]
    have hgroup : ('.' :: '.' :: ' ' :: (k ++ ':' :: rest)) =
        (('.' :: '.' :: ' ' :: k) ++ [':']) ++ rest := by simp
    rw [hgroup, pyRStrip_append]
    have hA : pyRStrip (('.' :: '.' :: ' ' :: k) ++ [':']) =
        ('.' :: '.' :: ' ' :: k) ++ [':'] := pyRStrip_append_nonspace (by decide)
    split
    · rename_i hcase
      have hre : pyRStrip rest = [] := by
        cases hx : pyRStrip rest with
        | nil => rfl
        | cons y ys => rw [hx] at hcase; cases hcase
      rw [hA, hre]
      simp
    · simp
  unfold parseMetaLine
  rw [hl]
  have hpre : ((".. ".toList).isPrefixOf
      ('.' :: '.' :: ' ' :: (k ++ ':' :: pyRStrip rest))) = true := by
    simp [List.isPrefixOf]
  simp only [hpre, if_true, List.drop_succ_cons, List.drop_zero]
  have hcontains : (k ++ ':' :: pyRStrip rest).contains ':' = true :=
    contains_of_mem (by simp)
  simp only [hcontains, if_true]
  rw [takeWhile_until_colon _ hkc, dropWhile_until_colon _ hkc]
  rw [pyStrip_of_forall hks]
  simp

theorem parseMetaLine_kv (acc : List (Str × Str)) (k v : Str)
    (hks : ∀ c ∈ k, pyIsSpace c = false) (hkc : ':' ∉ k) (hv : pyStrip v = v) :
    parseMetaLine acc (headerLine k v) = upsert acc k v := by
  have base := parseMetaLine_eval acc k (' ' :: v) hks hkc
  have hshape : headerLine k v = '.' :: '.' :: ' ' :: (k ++ ':' :: (' ' :: v)) := rfl
  rw [hshape, base]
  congr 1
  cases hv0 : v with
  | nil => decide
  | cons c0 t0 =>
    rw [← hv0]
    have hr : pyRStrip v = v := (pyStrip_self_parts hv).2
    rcases pyRStrip_last_nonspace hr (by rw [hv0]; simp) with ⟨a, cl, hdecomp, hns⟩
    have : pyRStrip (' ' :: v) = ' ' :: v := by
      rw [hdecomp]
      have h5 : pyRStrip ((' ' :: a) ++ [cl]) = (' ' :: a) ++ [cl] :=
        pyRStrip_append_nonspace hns
      simpa using h5
    rw [this, pyStrip_cons_space, hv]

theorem splitLines_ne_nil (s : Str) : splitLines s ≠ [] := by
  induction s with
  | nil => simp [splitLines]
  | cons c t ih =>
    simp only [splitLines]
    split
    · simp
    · cases h : splitLines t with
      | nil => exact absurd h ih
      | cons l ls => simp

theorem splitLines_append {a : Str} (b : Str) (h : '\n' ∉ a) :
    splitLines (a ++ '\n' :: b) = a :: splitLines b := by
  induction a with
  | nil => simp [splitLines]
  | cons c t ih =>
    have hc : ¬(c = '\n') := fun hh => h (hh ▸ List.mem_cons_self _ _)
    simp only [List.cons_append, splitLines, hc, if_false]
    simp [ih (fun hm => h (List.mem_cons_of_mem _ hm))]

theorem splitLines_single {a : Str} (h : '\n' ∉ a) : splitLines a = [a] := by
  induction a with
  | nil => rfl
  | cons c t ih =>
    have hc : ¬(c = '\n') := fun hh => h (hh ▸ List.mem_cons_self _ _)
    simp only [splitLines, hc, if_false]
    simp [ih (fun hm => h (List.mem_cons_of_mem _ hm))]

theorem mem_collapseWs {a : Char} {s : Str} (h : a ∈ collapseWs s) :
    a = ' ' ∨ (a ∈ s ∧ pyIsSpace a = false) := by
  induction s using collapseWs.induct with
  | case1 => simp [collapseWs] at h
  | case2 c hd =>
    simp only [collapseWs, if_pos hd] at h
    simp at h; left; exact h
  | case3 c hd =>
    simp only [collapseWs, if_neg hd] at h
    simp at h
    subst h
    right
    exact ⟨by simp, by simpa using hd⟩
  | case4 c d rest h1 h2 ih =>
    simp only [collapseWs, if_pos h1, if_pos h2] at h
    rcases ih h with h' | ⟨hm, hnd⟩
    · left; exact h'
    · right; exact ⟨List.mem_cons_of_mem _ hm, hnd⟩
  | case5 c d rest h1 h2 ih =>
    simp only [collapseWs, if_pos h1, if_neg h2] at h
    rcases List.mem_cons.mp h with h' | h'
    · left; exact h'
    · rcases ih h' with h'' | ⟨hm, hnd⟩
      · left; exact h''
      · right; exact ⟨List.mem_cons_of_mem _ hm, hnd⟩
  | case6 c d rest h1 ih =>
    simp only [collapseWs, if_neg h1] at h
    rcases List.mem_cons.mp h with h' | h'
    · subst h'
      right
      exact ⟨by simp, by simpa using h1⟩
    · rcases ih h' with h'' | ⟨hm, hnd⟩
      · left; exact h''
      · right; exact ⟨List.mem_cons_of_mem _ hm, hnd⟩

theorem mem_escapeQuotes {a : Char} {s : Str} (h : a ∈ escapeQuotes s) :
    a ∈ s ∨ a = '\\' := by
  induction s with
  | nil => simp [escapeQuotes] at h
  | cons c t ih =>
    simp only [escapeQuotes] at h
    split at h
    · rename_i hc
      rcases List.mem_cons.mp h with rfl | h2
      · right; rfl
      · rcases List.mem_cons.mp h2 with rfl | h3
        · left; rw [hc]; exact List.mem_cons_self _ _
        · rcases ih h3 with h4 | h4
          · left; exact List.mem_cons_of_mem _ h4
          · right; exact h4
    · rcases List.mem_cons.mp h with rfl | h2
      · left; exact List.mem_cons_self _ _
      · rcases ih h2 with h4 | h4
        · left; exact List.mem_cons_of_mem _ h4
        · right; exact h4


theorem nl_not_mem_cleanHtml (s : Str) : '\n' ∉ cleanHtmlContent s := by
  unfold cleanHtmlContent
  split
  · simp
  · intro hm
    have h1 := mem_pyStrip hm
    rcases mem_collapseWs h1 with h2 | ⟨_, h3⟩
    · exact absurd h2 (by decide)
    · exact absurd h3 (by decide)

theorem nl_not_mem_escapeQuotes {s : Str} (h : '\n' ∉ s) : '\n' ∉ escapeQuotes s := by
  intro hm
  rcases mem_escapeQuotes hm with h1 | h1
  · exact h h1
  · exact absurd h1 (by decide)

theorem slugify_chars (text : Str) : ∀ c ∈ slugify text, isSlugChar c = true := by
  intro c hc
  unfold slugify at hc
  have hc' := List.mem_of_mem_take hc
  rcases mem_hyphenate hc' with h | ⟨hm, hnd⟩
  · subst h; rfl
  · unfold pyLower at hm
    rcases List.mem_map.mp hm with ⟨b, hb, rfl⟩
    have hbs := mem_pyStrip hb
    unfold keepWordSpaceDash at hbs
    have hkeep := (List.mem_filter.mp hbs).2
    simp only [Bool.or_eq_true, decide_eq_true_eq] at hkeep
    unfold isDashSpace at hnd
    simp only [Bool.or_eq_false_iff, decide_eq_false_iff_not] at hnd
    rcases hkeep with (hw | hsp) | hdash
    · unfold pyIsWord at hw
      simp only [Bool.or_eq_true, decide_eq_true_eq] at hw
      rcases hw with halnum | hund
      · exact isSlugChar_toLower_of_isAlphanum halnum
      · subst hund; decide
    · rw [toLower_of_pyIsSpace hsp] at hnd
      exact absurd hsp (by simp [hnd.2])
    · subst hdash
      exact absurd (by decide : Char.toLower '-' = '-') hnd.1

theorem nl_not_mem_slugify (t : Str) : '\n' ∉ slugify t := by
  intro hm
  exact absurd (slugify_chars t '\n' hm) (by decide)

theorem digitChar_ne_nl (m : Nat) : digitChar m ≠ '\n' := by
  intro h
  have h2 := congrArg Char.toNat h
  rw [show digitChar m = Char.ofNat (48 + m % 10) from rfl] at h2
  rw [toNat_ofNat_small (by omega)] at h2
  have h3 : Char.toNat '\n' = 10 := by decide
  rw [h3] at h2
  omega

theorem nl_not_mem_pad2 (n : Nat) : '\n' ∉ pad2 n := by
  intro h
  simp only [pad2, List.mem_cons, List.not_mem_nil, or_false] at h
  rcases h with h | h <;> exact digitChar_ne_nl _ h.symm

theorem nl_not_mem_pad4 (n : Nat) : '\n' ∉ pad4 n := by
  intro h
  simp only [pad4, List.mem_cons, List.not_mem_nil, or_false] at h
  rcases h with h | h | h | h <;> exact digitChar_ne_nl _ h.symm

theorem nl_not_mem_formatDate (d : DateTime) : '\n' ∉ formatDate d := by
  intro h
  rcases List.mem_append.mp h with h1 | h1
  · rcases List.mem_append.mp h1 with h2 | h2
    · exact nl_not_mem_pad4 _ h2
    · rcases List.mem_cons.mp h2 with h3 | h3
      · exact absurd h3 (by decide)
      · exact nl_not_mem_pad2 _ h3
  · rcases List.mem_cons.mp h1 with h2 | h2
    · exact absurd h2 (by decide)
    · exact nl_not_mem_pad2 _ h2

theorem nl_not_mem_formatDateTimeZ (d : DateTime) : '\n' ∉ formatDateTimeZ d := by
  intro h
  rcases List.mem_append.mp h with h1 | h1
  · rcases List.mem_append.mp h1 with h2 | h2
    · rcases List.mem_append.mp h2 with h3 | h3
      · rcases List.mem_append.mp h3 with h4 | h4
        · exact nl_not_mem_formatDate _ h4
        · rcases List.mem_cons.mp h4 with h5 | h5
          · exact absurd h5 (by decide)
          · exact nl_not_mem_pad2 _ h5
      · rcases List.mem_cons.mp h3 with h4 | h4
        · exact absurd h4 (by decide)
        · exact nl_not_mem_pad2 _ h4
    · rcases List.mem_cons.mp h2 with h3 | h3
      · exact absurd h3 (by decide)
      · exact nl_not_mem_pad2 _ h3
  · exact absurd h1 (by decide)

theorem toLower_eq_nl {b : Char} (h : Char.toLower b = '\n') : b = '\n' := by
  rw [Char.toLower] at h
  split at h
  · rename_i hr
    have h2 := congrArg Char.toNat h
    rw [toNat_ofNat_small (by omega)] at h2
    have h3 : Char.toNat '\n' = 10 := by decide
    rw [h3] at h2
    omega
  · exact h

theorem nl_not_mem_pyLower {ai : Str} (h : '\n' ∉ ai) : '\n' ∉ pyLower ai := by
  intro hm
  rcases List.mem_map.mp hm with ⟨b, hb, heq⟩
  exact h (toLower_eq_nl heq ▸ hb)

theorem nl_not_mem_categoryOf {ai : Str} (h : '\n' ∉ ai) : '\n' ∉ categoryOf ai := by
  unfold categoryOf
  split
  · decide
  · exact nl_not_mem_pyLower h

theorem nl_not_mem_sourceTag (sn : Str) : '\n' ∉ sourceTag sn := by
  intro hm
  rcases mem_hyphenate hm with h | ⟨_, h2⟩
  · exact absurd h (by decide)
  · exact absurd h2 (by decide)

theorem tagsStr_cases (sn : Str) : tagsStr sn = [] ∨ tagsStr sn = sourceTag sn := by
  dsimp only [tagsStr]
  split
  · exact Or.inl rfl
  · split
    · exact Or.inl rfl
    · split
      · exact Or.inl rfl
      · exact Or.inr rfl

theorem nl_not_mem_tagsStr (sn : Str) : '\n' ∉ tagsStr sn := by
  intro hm
  rcases tagsStr_cases sn with h | h
  · rw [h] at hm; cases hm
  · rw [h] at hm; exact nl_not_mem_sourceTag sn hm

theorem nl_not_mem_postDescription (s : Str) : '\n' ∉ postDescription s := by
  intro hm
  rcases mem_escapeQuotes hm with h1 | h1
  · rcases List.mem_append.mp h1 with h2 | h2
    · exact nl_not_mem_cleanHtml s (List.mem_of_mem_take h2)
    · exact absurd h2 (by decide)
  · exact absurd h1 (by decide)

theorem nl_not_mem_headerLine {k v : Str} (hk : '\n' ∉ k) (hv : '\n' ∉ v) :
    '\n' ∉ headerLine k v := by
  intro hm
  simp only [headerLine, List.mem_cons, List.mem_append] at hm
  rcases hm with h | h | h | h | h | h | h
  · exact absurd h (by decide)
  · exact absurd h (by decide)
  · exact absurd h (by decide)
  · exact hk h
  · exact absurd h (by decide)
  · exact absurd h (by decide)
  · exact hv h

theorem startsWithArrow_headerLine (k v : Str) :
    startsWithArrow (headerLine k v) = false := by
  unfold startsWithArrow headerLine
  rw [dropWhile_head_false (by decide)]
  rfl

theorem isBlankLine_headerLine (k v : Str) : isBlankLine (headerLine k v) = false := rfl

theorem startsTerm_headerLine (k v : Str) (rest : List Str) :
    startsTerm (headerLine k v :: rest) = false := by
  simp [startsTerm, startsWithArrow_headerLine, isBlankLine_headerLine]

theorem takeBlock_headerLine (k v : Str) (rest : List Str) :
    takeBlock (headerLine k v :: rest) = (takeBlock rest).map (headerLine k v :: ·) := by
  simp [takeBlock, startsTerm_headerLine]

theorem takeBlock_arrow (rest : List Str) : takeBlock ("-->".toList :: rest) = some [] := by
  have h : startsTerm (('-' :: '-' :: '>' :: []) :: rest) = true := by
    simp only [startsTerm, Bool.or_eq_true]
    exact Or.inl (by decide)
  simp [takeBlock, h]

theorem pyIsSpace_false_of_ge {c : Char} (h : 33 ≤ c.toNat) : pyIsSpace c = false := by
  simp only [pyIsSpace, Bool.or_eq_false_iff, decide_eq_false_iff_not]
  refine ⟨⟨⟨⟨⟨?_, ?_⟩, ?_⟩, ?_⟩, ?_⟩, ?_⟩ <;>
    · rintro rfl
      exact absurd h (by decide)

theorem pyIsSpace_toLower (c : Char) : pyIsSpace (Char.toLower c) = pyIsSpace c := by
  rw [Char.toLower]
  split
  · rename_i hr
    have h1 : pyIsSpace (Char.ofNat (Char.toNat c + 32)) = false := by
      apply pyIsSpace_false_of_ge
      rw [toNat_ofNat_small (by omega)]
      omega
    have h2 : pyIsSpace c = false := pyIsSpace_false_of_ge (by omega)
    rw [h1, h2]
  · rfl

theorem pyStrip_pyLower (s : Str) : pyStrip (pyLower s) = pyLower (pyStrip s) := by
  have hfun : (pyIsSpace ∘ Char.toLower) = pyIsSpace := funext pyIsSpace_toLower
  unfold pyStrip pyLStrip pyRStrip pyLower
  rw [List.dropWhile_map, hfun, ← List.map_reverse, List.dropWhile_map, hfun, ← List.map_reverse]

theorem toLower_eq_low {a b : Char} (ha : a.toNat < 97) (h : Char.toLower b = a) : b = a := by
  rw [Char.toLower] at h
  split at h
  · rename_i hr
    have h2 := congrArg Char.toNat h
    rw [toNat_ofNat_small (by omega)] at h2
    omega
  · exact h

theorem sourceTag_nonspace (sn : Str) : ∀ c ∈ sourceTag sn, pyIsSpace c = false := by
  intro c hc
  rcases mem_hyphenate hc with rfl | ⟨_, h2⟩
  · decide
  · simp only [isDashSpace, Bool.or_eq_false_iff] at h2
    exact h2.2

theorem pyStrip_tagsStr (sn : Str) : pyStrip (tagsStr sn) = tagsStr sn := by
  rcases tagsStr_cases sn with h | h <;> rw [h]
  · rfl
  · exact pyStrip_of_forall (sourceTag_nonspace sn)

theorem comma_not_mem_sourceTag (sn : Str) : ',' ∉ sourceTag sn := by
  intro hm
  rcases mem_hyphenate hm with h | ⟨hmem, _⟩
  · exact absurd h (by decide)
  · rcases List.mem_map.mp hmem with ⟨b, hb, heq⟩
    have hbc : b = ',' := toLower_eq_low (by decide) heq
    subst hbc
    have h1 := mem_pyStrip hb
    have h2 := (List.mem_filter.mp h1).2
    exact absurd h2 (by decide)

theorem splitCommas_single {a : Str} (h : ',' ∉ a) : splitCommas a = [a] := by
  induction a with
  | nil => rfl
  | cons c t ih =>
    have hc : ¬(c = ',') := fun hh => h (hh ▸ List.mem_cons_self _ _)
    simp only [splitCommas, hc, if_false]
    simp [ih (fun hm => h (List.mem_cons_of_mem _ hm))]

theorem sourceTag_of_strip_nil {sn : Str} (h : pyStrip sn = []) : sourceTag sn = [] := by
  unfold sourceTag
  rw [h]
  rfl

theorem tagsStr_eq_sourceTag {sn : Str} (h : sourceTag sn ≠ []) :
    tagsStr sn = sourceTag sn := by
  dsimp only [tagsStr]
  split
  · rename_i hemp
    exact absurd (sourceTag_of_strip_nil (List.isEmpty_iff.mp hemp)) h
  · split
    · rename_i ht
      exact absurd (List.isEmpty_iff.mp ht) h
    · split
      · rename_i hst
        rw [pyStrip_of_forall (sourceTag_nonspace sn)] at hst
        exact absurd (List.isEmpty_iff.mp hst) h
      · rfl

theorem upsert_new {l : List (Str × Str)} {k : Str} (v : Str) (h : k ∉ l.map Prod.fst) :
    upsert l k v = l ++ [(k, v)] := by
  induction l with
  | nil => rfl
  | cons p t ih =>
    obtain ⟨k', v'⟩ := p
    simp only [List.map_cons, List.mem_cons] at h
    push_neg at h
    simp only [upsert]
    rw [if_neg (fun he : k' = k => h.1 he.symm)]
    rw [ih h.2]
    simp

theorem dictLookup_cons_ne {k' : Str} (v : Str) (t : List (Str × Str)) {k : Str}
    (h : ¬(k' = k)) : dictLookup ((k', v) :: t) k = dictLookup t k := by
  simp only [dictLookup, if_neg h]

theorem dictLookup_cons_eq (k : Str) (v : Str) (t : List (Str × Str)) :
    dictLookup ((k, v) :: t) k = some v := by
  simp [dictLookup]

theorem postContent_decompose (item : Item) (pd : DateTime) (slug : Str) :
    postContent item pd slug =
      "<!--".toList ++ '\n' ::
        (headerLine ("title".toList) (escapeQuotes item.title) ++ '\n' ::
        (headerLine ("slug".toList) slug ++ '\n' ::
        (headerLine ("date".toList) (formatDateTimeZ pd) ++ '\n' ::
        (headerLine ("tags".toList) (tagsStr item.sourceName) ++ '\n' ::
        (headerLine ("category".toList) (categoryOf item.aiCategory) ++ '\n' ::
        (headerLine ("link".toList) item.link ++ '\n' ::
        (headerLine ("description".toList) (postDescription item.summary) ++ '\n' ::
        (headerLine ("type".toList) ("text".toList) ++ '\n' ::
        ("-->".toList ++ '\n' :: '\n' :: formatMarkdownContent item))))))))) := by
  simp only [postContent, headerLine, List.append_assoc, List.cons_append, List.nil_append]
  rfl

theorem splitLines_postContent (item : Item) (pd : DateTime)
    (hT : '\n' ∉ item.title) (hL : '\n' ∉ item.link) (hC : '\n' ∉ item.aiCategory) :
    splitLines (postContent item pd (slugify item.title)) =
      "<!--".toList ::
      headerLine ("title".toList) (escapeQuotes item.title) ::
      headerLine ("slug".toList) (slugify item.title) ::
      headerLine ("date".toList) (formatDateTimeZ pd) ::
      headerLine ("tags".toList) (tagsStr item.sourceName) ::
      headerLine ("category".toList) (categoryOf item.aiCategory) ::
      headerLine ("link".toList) item.link ::
      headerLine ("description".toList) (postDescription item.summary) ::
      headerLine ("type".toList) ("text".toList) ::
      "-->".toList :: [] :: splitLines (formatMarkdownContent item) := by
  rw [postContent_decompose]
  rw [splitLines_append _ (by decide)]
  rw [splitLines_append _ (nl_not_mem_headerLine (by decide) (nl_not_mem_escapeQuotes hT))]
  rw [splitLines_append _ (nl_not_mem_headerLine (by decide) (nl_not_mem_slugify _))]
  rw [splitLines_append _ (nl_not_mem_headerLine (by decide) (nl_not_mem_formatDateTimeZ _))]
  rw [splitLines_append _ (nl_not_mem_headerLine (by decide) (nl_not_mem_tagsStr _))]
  rw [splitLines_append _ (nl_not_mem_headerLine (by decide) (nl_not_mem_categoryOf hC))]
  rw [splitLines_append _ (nl_not_mem_headerLine (by decide) hL)]
  rw [splitLines_append _ (nl_not_mem_headerLine (by decide) (nl_not_mem_postDescription _))]
  rw [splitLines_append _ (nl_not_mem_headerLine (by decide) (by decide))]
  rw [splitLines_append _ (by decide)]
  simp [splitLines]


theorem slugify_nonspace (t : Str) : ∀ c ∈ slugify t, pyIsSpace c = false := by
  intro c hc
  have h := slugify_chars t c hc
  simp only [isSlugChar, Bool.or_eq_true, Bool.and_eq_true, decide_eq_true_eq] at h
  rcases h with ((⟨h1, _⟩ | ⟨h1, _⟩) | rfl) | rfl
  · exact pyIsSpace_false_of_ge (by omega)
  · exact pyIsSpace_false_of_ge (by omega)
  · decide
  · decide

theorem extractBlockLines_cons_open (l0 : Str) (rest : List Str)
    (h : openCommentLine l0 = true) (bl : List Str)
    (htb : takeBlock (rest.dropWhile isBlankLine) = some bl) :
    extractBlockLines (l0 :: rest) = some bl := by
  unfold extractBlockLines
  rw [if_pos h, htb]

theorem parsePostMetadata_eq {c : Str} {bl : List Str}
    (h : extractBlockLines (splitLines c) = some bl) :
    parsePostMetadata c = bl.foldl parseMetaLine [] := by
  unfold parsePostMetadata
  rw [h]

theorem parsePostMetadata_postContent (item : Item) (pd : DateTime)
    (hT : '\n' ∉ item.title) (hL : '\n' ∉ item.link) (hC : '\n' ∉ item.aiCategory)
    (htrim : pyStrip item.aiCategory = item.aiCategory) (hne : item.aiCategory ≠ []) :
    ∃ w1 w3 w6 w7,
      parsePostMetadata (postContent item pd (slugify item.title)) =
        [("title".toList, w1), ("slug".toList, slugify item.title), ("date".toList, w3),
         ("tags".toList, tagsStr item.sourceName),
         ("category".toList, pyLower item.aiCategory),
         ("link".toList, w6), ("description".toList, w7),
         ("type".toList, "text".toList)] := by
  have hcatval : categoryOf item.aiCategory = pyLower item.aiCategory := by
    unfold categoryOf
    rw [if_neg (by simp [List.isEmpty_iff, hne])]
  have hcatstrip : pyStrip (pyLower item.aiCategory) = pyLower item.aiCategory := by
    rw [pyStrip_pyLower, htrim]
  have hextract : extractBlockLines (splitLines (postContent item pd (slugify item.title))) =
      some [headerLine ("title".toList) (escapeQuotes item.title),
            headerLine ("slug".toList) (slugify item.title),
            headerLine ("date".toList) (formatDateTimeZ pd),
            headerLine ("tags".toList) (tagsStr item.sourceName),
            headerLine ("category".toList) (categoryOf item.aiCategory),
            headerLine ("link".toList) item.link,
            headerLine ("description".toList) (postDescription item.summary),
            headerLine ("type".toList) ("text".toList)] := by
    rw [splitLines_postContent item pd hT hL hC]
    apply extractBlockLines_cons_open _ _ (by decide)
    rw [dropWhile_head_false (isBlankLine_headerLine _ _)]
    rw [takeBlock_headerLine, takeBlock_headerLine, takeBlock_headerLine, takeBlock_headerLine,
        takeBlock_headerLine, takeBlock_headerLine, takeBlock_headerLine, takeBlock_headerLine,
        takeBlock_arrow]
    rfl
  rw [parsePostMetadata_eq hextract]
  refine ⟨pyStrip (pyRStrip (' ' :: escapeQuotes item.title)),
    pyStrip (pyRStrip (' ' :: formatDateTimeZ pd)),
    pyStrip (pyRStrip (' ' :: item.link)),
    pyStrip (pyRStrip (' ' :: postDescription item.summary)), ?_⟩
  simp only [List.foldl_cons, List.foldl_nil]
  rw [show headerLine ("title".toList) (escapeQuotes item.title) =
      '.' :: '.' :: ' ' :: ("title".toList ++ ':' :: (' ' :: escapeQuotes item.title)) from rfl]
  rw [parseMetaLine_eval [] ("title".toList) (' ' :: escapeQuotes item.title)
    (by decide) (by decide)]
  rw [upsert_new _ (by simp)]
  simp only [List.nil_append]
  rw [parseMetaLine_kv _ ("slug".toList) (slugify item.title) (by decide) (by decide)
    (pyStrip_of_forall (slugify_nonspace _))]
  rw [upsert_new _ (by simp)]
  rw [show headerLine ("date".toList) (formatDateTimeZ pd) =
      '.' :: '.' :: ' ' :: ("date".toList ++ ':' :: (' ' :: formatDateTimeZ pd)) from rfl]
  rw [parseMetaLine_eval _ ("date".toList) (' ' :: formatDateTimeZ pd) (by decide) (by decide)]
  rw [upsert_new _ (by simp)]
  rw [parseMetaLine_kv _ ("tags".toList) (tagsStr item.sourceName) (by decide) (by decide)
    (pyStrip_tagsStr _)]
  rw [upsert_new _ (by simp)]
  rw [show headerLine ("category".toList) (categoryOf item.aiCategory) =
      headerLine ("category".toList) (pyLower item.aiCategory) from by rw [hcatval]]
  rw [parseMetaLine_kv _ ("category".toList) (pyLower item.aiCategory) (by decide) (by decide)
    hcatstrip]
  rw [upsert_new _ (by simp)]
  rw [show headerLine ("link".toList) item.link =
      '.' :: '.' :: ' ' :: ("link".toList ++ ':' :: (' ' :: item.link)) from rfl]
  rw [parseMetaLine_eval _ ("link".toList) (' ' :: item.link) (by decide) (by decide)]
  rw [upsert_new _ (by simp)]
  rw [show headerLine ("description".toList) (postDescription item.summary) =
      '.' :: '.' :: ' ' :: ("description".toList ++ ':' :: (' ' :: postDescription item.summary))
      from rfl]
  rw [parseMetaLine_eval _ ("description".toList) (' ' :: postDescription item.summary)
    (by decide) (by decide)]
  rw [upsert_new _ (by simp)]
  rw [parseMetaLine_kv _ ("type".toList) ("text".toList) (by decide) (by decide) (by decide)]
  rw [upsert_new _ (by simp)]
  rfl


/-- C8, counterexample: the metadata round trip fails for fields with
embedded newlines.  An AI Category `a\nb` is recovered as just `a`; a
Title containing a line `-->` truncates the comment block so the
category is lost entirely; and a Link smuggling a `.. category:` line
overwrites the category. -/
theorem metadata_roundtrip_cex :
    (dictLookup (parsePostMetadata
        (postContent itemNlCategory pdSample (slugify itemNlCategory.title)))
        ("category".toList) = some ("a".toList) ∧
      pyLower itemNlCategory.aiCategory = ('a' :: '\n' :: 'b' :: [])) ∧
    dictLookup (parsePostMetadata
        (postContent itemArrowTitle pdSample (slugify itemArrowTitle.title)))
        ("category".toList) = none ∧
    dictLookup (parsePostMetadata
        (postContent itemNlLink pdSample (slugify itemNlLink.title)))
        ("category".toList) = some ("hijack".toList) := by
  decide

/-- C8, amended: for every post written by `create_blog_post` whose
Title, Link and AI Category contain no newline (the stored AI Category
being stripped, as `BlogPostItem` validation guarantees),
`parse_post_metadata` on the written file recovers the `category` equal
to the lowercased AI Category and the `tags` value equal to the
normalized Source Name tag; when that tag is non-empty it is the first
comma-separated tag, and `scan_existing_posts` over a directory holding
the generated post returns exactly that category and (when non-empty)
that source tag. -/
theorem metadata_roundtrip (item : Item) (pd : DateTime)
    (hT : '\n' ∉ item.title) (hL : '\n' ∉ item.link) (hC : '\n' ∉ item.aiCategory)
    (htrim : pyStrip item.aiCategory = item.aiCategory) (hne : item.aiCategory ≠ []) :
    dictLookup (parsePostMetadata (postContent item pd (slugify item.title)))
        ("category".toList) = some (pyLower item.aiCategory) ∧
    dictLookup (parsePostMetadata (postContent item pd (slugify item.title)))
        ("tags".toList) = some (tagsStr item.sourceName) ∧
    (sourceTag item.sourceName ≠ [] →
      (splitCommas (tagsStr item.sourceName)).head? = some (sourceTag item.sourceName)) ∧
    (∀ key : PathKey,
      scanExistingPosts [(key, postContent item pd (slugify item.title))] =
        ([pyLower item.aiCategory],
         if sourceTag item.sourceName = [] then [] else [sourceTag item.sourceName])) := by
  obtain ⟨w1, w3, w6, w7, hdict⟩ := parsePostMetadata_postContent item pd hT hL hC htrim hne
  have hcat : dictLookup (parsePostMetadata (postContent item pd (slugify item.title)))
      ("category".toList) = some (pyLower item.aiCategory) := by
    rw [hdict]
    rw [dictLookup_cons_ne _ _ (by decide), dictLookup_cons_ne _ _ (by decide),
      dictLookup_cons_ne _ _ (by decide), dictLookup_cons_ne _ _ (by decide),
      dictLookup_cons_eq]
  have htags : dictLookup (parsePostMetadata (postContent item pd (slugify item.title)))
      ("tags".toList) = some (tagsStr item.sourceName) := by
    rw [hdict]
    rw [dictLookup_cons_ne _ _ (by decide), dictLookup_cons_ne _ _ (by decide),
      dictLookup_cons_ne _ _ (by decide), dictLookup_cons_eq]
  have hlowne : (pyLower item.aiCategory).isEmpty = false := by
    cases hai : item.aiCategory with
    | nil => exact absurd hai hne
    | cons c t => simp [pyLower]
  have hcatstrip : pyStrip (pyLower item.aiCategory) = pyLower item.aiCategory := by
    rw [pyStrip_pyLower, htrim]
  refine ⟨hcat, htags, ?_, ?_⟩
  · intro hst
    rw [tagsStr_eq_sourceTag hst, splitCommas_single (comma_not_mem_sourceTag _)]
    rfl
  · intro key
    unfold scanExistingPosts
    simp only [List.foldl_cons, List.foldl_nil]
    unfold scanFold
    simp only [hcat, htags]
    rw [hcatstrip]
    simp only [hlowne, Bool.false_eq_true, if_false]
    by_cases hst : sourceTag item.sourceName = []
    · have htag0 : tagsStr item.sourceName = [] := by
        rcases tagsStr_cases item.sourceName with h | h
        · exact h
        · rw [h, hst]
      rw [htag0, if_pos hst]
      simp [splitCommas, insertSet, show pyStrip ([] : Str) = [] from rfl]
    · rw [tagsStr_eq_sourceTag hst, splitCommas_single (comma_not_mem_sourceTag _),
        if_neg hst]
      simp only [pyStrip_of_forall (sourceTag_nonspace _)]
      rw [if_neg (by simp [List.isEmpty_iff, hst])]
      simp [insertSet]

theorem metadata_roundtrip_witness :
    dictLookup (parsePostMetadata (postContent sampleItem pdSample (slugify sampleItem.title)))
        ("category".toList) = some (pyLower sampleItem.aiCategory) ∧
    dictLookup (parsePostMetadata (postContent sampleItem pdSample (slugify sampleItem.title)))
        ("tags".toList) = some (tagsStr sampleItem.sourceName) ∧
    (sourceTag sampleItem.sourceName ≠ [] →
      (splitCommas (tagsStr sampleItem.sourceName)).head? =
        some (sourceTag sampleItem.sourceName)) ∧
    (∀ key : PathKey,
      scanExistingPosts [(key, postContent sampleItem pdSample (slugify sampleItem.title))] =
        ([pyLower sampleItem.aiCategory],
         if sourceTag sampleItem.sourceName = [] then [] else [sourceTag sampleItem.sourceName])) :=
  metadata_roundtrip sampleItem pdSample (by decide) (by decide) (by decide)
    (by decide) (by decide)


end Feeds
